import Mathlib

/-!
# GStore: a shallow embedding of the wukong key-value graph store

This file embeds the core storage engine (class `GStore` of the repository)
in Lean 4: the packed key type, the cluster-chaining hash table
(`insert_key`, `get_vertex_local`, `get_vertex_remote`), the entry arena
(`sync_fetch_and_alloc_edges`), the bulk loader (`insert_normal`,
`insert_index`, `insert_index_map`) and the readers (`get_edges_local`,
`get_edges_remote`, `get_edges_global`, `get_index_edges_local`), together
with the `RDMA_Cache` used by the remote path.

Machine integers (`uint64_t`, `int64_t`) are modelled as `Nat` (all ids are
non-negative); memory regions are modelled as total functions `Nat → Vertex`
and `Nat → Nat`; fatal `assert` failures are modelled by an explicit error
result; the unbounded `while` loops of the source are modelled with explicit
fuel, where running out of fuel stands for non-termination of the loop.
-/

/-- `ASSOCIATIVITY = 8`: the associativity of slots in each bucket. -/
def ASSOCIATIVITY : Nat := 8

/-- `IN = 0` (reverse direction). -/
def IN : Nat := 0

/-- `OUT = 1` (forward direction). -/
def OUT : Nat := 1

/-- `TYPE_ID = 1`: reserved meta-predicate for type lists. -/
def TYPE_ID : Nat := 1

/-- `PREDICATE_ID = 0`: reserved meta-predicate for predicate lists. -/
def PREDICATE_ID : Nat := 0

/-- `NUM_ITEMS = 100000`: number of slots of `RDMA_Cache`. -/
def NUM_ITEMS : Nat := 100000

/-- The key `ikey_t`: a triple `(vid, dir, pid)` (constructed in the source
as `ikey_t(vid, d, pid)`). -/
structure IKey where
  vid : Nat
  dir : Nat
  pid : Nat
deriving DecidableEq, Repr

/-- The empty key `ikey_t()`: all fields zero, reserved as the empty-slot
sentinel. -/
def IKey.empty : IKey := ⟨0, 0, 0⟩

/-- Modelled from the spec: `ikey_t::hash()` lives in `graph_basic_types.hpp`,
which is not part of the sources; the spec states only that the key is
"packed into 64 bits with a deterministic `hash()` derived from all three
fields" under the encoding `vid ≥ 2^17 > pid > 2^1`, `dir ∈ {0,1}`.  We use
the packed 64-bit value itself as the hash. -/
def IKey.hash (k : IKey) : Nat := (k.vid * 2 ^ 18 + k.pid * 2 + k.dir) % 2 ^ 64

/-- Modelled from the spec: `mymath::hash_mod` lives in `mymath.hpp`, which is
not part of the sources; the spec describes the owning server of vertex `v`
as `hash(v) mod N` and instantiates `hash(x) = x mod 2` for `N = 2`, i.e.
`hash_mod n m = n % m`. -/
def hash_mod (n m : Nat) : Nat := n % m

/-- The pointer record `iptr_t`: `(size, off)` into the entry region. -/
structure IPtr where
  size : Nat
  off : Nat
deriving DecidableEq, Repr

/-- The slot record `vertex_t`: a key and a pointer record. -/
structure Vertex where
  key : IKey
  ptr : IPtr
deriving DecidableEq, Repr

/-- The default record `vertex_t()`. -/
def Vertex.empty : Vertex := ⟨IKey.empty, ⟨0, 0⟩⟩

/-- A triple `triple_t`: `(s, p, o)`. -/
structure Triple where
  s : Nat
  p : Nat
  o : Nat
deriving DecidableEq, Repr

/-- Configuration fixed at construction: region sizes and cluster facts
(`num_buckets`, `num_buckets_ext`, `num_entries`, `global_num_servers`) and
the threshold separating type/predicate ids from vertex ids (the spec's
`TPID_MAX`; `is_tpid` tests `x < TPID_MAX`). -/
structure Config where
  numBuckets : Nat
  numBucketsExt : Nat
  numEntries : Nat
  numServers : Nat
  tpidMax : Nat
deriving Repr

/-- Modelled from the spec: `is_tpid` (from `graph_basic_types.hpp`, not in the
sources) tests whether an id is a type/predicate id: `x < TPID_MAX`. -/
def Config.is_tpid (cfg : Config) (x : Nat) : Bool := x < cfg.tpidMax

/-- The state of a `GStore` replica: the slot region `vertices`, the entry
region `edges`, and the two bump counters `last_ext` and `last_entry`. -/
structure GStore where
  cfg : Config
  vertices : Nat → Vertex
  edges : Nat → Nat
  lastExt : Nat
  lastEntry : Nat

/-- `num_slots`: the slot region holds `num_buckets + num_buckets_ext` buckets
of `ASSOCIATIVITY` slots each. -/
def GStore.numSlots (g : GStore) : Nat :=
  (g.cfg.numBuckets + g.cfg.numBucketsExt) * ASSOCIATIVITY

/-- Write the key field of slot `i` (`vertices[i].key = k`). -/
def GStore.setKey (g : GStore) (i : Nat) (k : IKey) : GStore :=
  { g with vertices := fun j => if j = i then ⟨k, (g.vertices i).ptr⟩ else g.vertices j }

/-- Write only the `vid` field of the key of slot `i`
(`vertices[i].key.vid = v`). -/
def GStore.setKeyVid (g : GStore) (i : Nat) (v : Nat) : GStore :=
  { g with vertices := fun j => if j = i then
      ⟨⟨v, (g.vertices i).key.dir, (g.vertices i).key.pid⟩, (g.vertices i).ptr⟩
    else g.vertices j }

/-- Write the pointer record of slot `i` (`vertices[i].ptr = p`). -/
def GStore.setPtr (g : GStore) (i : Nat) (p : IPtr) : GStore :=
  { g with vertices := fun j => if j = i then ⟨(g.vertices i).key, p⟩ else g.vertices j }

/-- Write entry `i` of the entry region (`edges[i].val = v`). -/
def GStore.setEdge (g : GStore) (i v : Nat) : GStore :=
  { g with edges := fun j => if j = i then v else g.edges j }

/-- The constructor `GStore::GStore`: it receives the (uninitialized) memory
region from the transport and sets `last_entry = 0`.  It never assigns
`last_ext`, so that counter keeps whatever value the underlying memory held;
`residualLastExt` models that indeterminate value. -/
def GStore.construct (cfg : Config) (mem : Nat → Vertex) (emem : Nat → Nat)
    (residualLastExt : Nat) : GStore :=
  { cfg := cfg, vertices := mem, edges := emem,
    lastExt := residualLastExt, lastEntry := 0 }

/-- `GStore::init()`: set `vertices[i].key = ikey_t()` for every
`i < num_slots` (the pointer fields and everything outside the slot region
are left untouched). -/
def GStore.init (g : GStore) : GStore :=
  { g with vertices := fun i =>
      if i < g.numSlots then ⟨IKey.empty, (g.vertices i).ptr⟩ else g.vertices i }

/-- Read `n` entry values starting at offset `off`. -/
def readEdges (g : GStore) (off n : Nat) : List Nat :=
  (List.range n).map (fun i => g.edges (off + i))

/-- Write a list of entry values starting at offset `off`
(`edges[off++].val = v` for each `v`). -/
def writeEdges (g : GStore) (off : Nat) : List Nat → GStore
  | [] => g
  | v :: rest => writeEdges (g.setEdge off v) (off + 1) rest

/-- Fatal `assert` failures of the build path. -/
inductive Fatal where
  /-- `assert(false)` on finding the key already present (`insert_key`). -/
  | dupKey
  /-- `assert(last_ext < num_buckets_ext)` fails. -/
  | extCap
  /-- `assert(slot_id < num_slots)` at `done:` fails. -/
  | slotBound
  /-- `assert(last_entry < num_entries)` fails. -/
  | entryCap
  /-- `assert(false)` on an `(IN, TYPE_ID)` slot in the `insert_index` scan. -/
  | inTypeAssert
deriving DecidableEq, Repr

/-- Result of `insert_key`: the updated store and the slot that received the
key, a fatal assertion, or divergence of the bucket-walking loop. -/
inductive IRes where
  | ok (g : GStore) (slot : Nat)
  | fatal (f : Fatal)
  | diverge

/-- Result of a store-updating build operation. -/
inductive GRes where
  | ok (g : GStore)
  | fatal (f : Fatal)
  | diverge

/-- `true` iff the operation completed without a fatal assertion. -/
def GRes.isOk : GRes → Bool
  | .ok _ => true
  | _ => false

/-- The completed store, or `d` if the operation did not complete. -/
def GRes.getD (r : GRes) (d : GStore) : GStore :=
  match r with
  | .ok g => g
  | _ => d

/-- Outcome of the data-slot scan of one bucket inside `insert_key`
(the `for (i = 0; i < ASSOCIATIVITY - 1; i++, slot_id++)` loop). -/
inductive ScanRes where
  /-- The key was found in a data slot: duplicate, `assert(false)`. -/
  | dup (slot : Nat)
  /-- The first empty data slot is `slot`; the key is stored there. -/
  | emptyAt (slot : Nat)
  /-- All data slots hold other keys; `slot` is where the loop left
  `slot_id` (the last slot of the bucket). -/
  | full (slot : Nat)
deriving DecidableEq, Repr

/-- Scan `n` consecutive data slots starting at `slot`, in source order:
first the duplicate check, then the empty check, each slot in turn. -/
def scanSlots (g : GStore) (key : IKey) : Nat → Nat → ScanRes
  | slot, 0 => .full slot
  | slot, n + 1 =>
    if (g.vertices slot).key = key then .dup slot
    else if (g.vertices slot).key = IKey.empty then .emptyAt slot
    else scanSlots g key (slot + 1) n

/-- The `while (slot_id < num_slots)` loop of `insert_key`, with `slot_id`
at a bucket boundary.  Transcribed exactly: after the data-slot scan
leaves `slot_id` at the last slot of the bucket, the source inspects
`vertices[++slot_id]`, i.e. the slot *after* the bucket, as the chain
pointer, follows its `vid` when non-empty, and otherwise allocates overflow
bucket `num_buckets + last_ext++` (asserting `last_ext < num_buckets_ext`),
records its id in that slot's `vid` field, and stores the key in the first
slot of the new bucket. -/
def insertKeyLoop (g : GStore) (key : IKey) : Nat → Nat → IRes
  | _, 0 => .diverge
  | slot_id, fuel + 1 =>
    if slot_id < g.numSlots then
      match scanSlots g key slot_id (ASSOCIATIVITY - 1) with
      | .dup _ => .fatal .dupKey
      | .emptyAt j => .ok (g.setKey j key) j
      | .full s =>
        let s' := s + 1
        if (g.vertices s').key ≠ IKey.empty then
          insertKeyLoop g key ((g.vertices s').key.vid * ASSOCIATIVITY) fuel
        else
          if g.lastExt < g.cfg.numBucketsExt then
            let E := g.cfg.numBuckets + g.lastExt
            let g1 := { g.setKeyVid s' E with lastExt := g.lastExt + 1 }
            .ok (g1.setKey (E * ASSOCIATIVITY) key) (E * ASSOCIATIVITY)
          else .fatal .extCap
    else .fatal .slotBound

/-- `GStore::insert_key`: start at the primary bucket
`key.hash() % num_buckets`. -/
def insert_key (g : GStore) (key : IKey) : IRes :=
  insertKeyLoop g key ((key.hash % g.cfg.numBuckets) * ASSOCIATIVITY) (g.numSlots + 1)

/-- `GStore::sync_fetch_and_alloc_edges(n)`: bump `last_entry` by `n`,
asserting the new value stays below `num_entries`; return the pre-bump
value. -/
def allocEdges (g : GStore) (n : Nat) : Option (GStore × Nat) :=
  if g.lastEntry + n < g.cfg.numEntries then
    some ({ g with lastEntry := g.lastEntry + n }, g.lastEntry)
  else none

/-- The data-slot half of a lookup bucket scan: return the first slot among
`slot .. slot+n-1` whose key equals `key`. -/
def findData (g : GStore) (key : IKey) : Nat → Nat → Option Vertex
  | _, 0 => none
  | slot, n + 1 =>
    if (g.vertices slot).key = key then some (g.vertices slot)
    else findData g key (slot + 1) n

/-- The `while (true)` loop of `GStore::get_vertex_local`: scan the data
slots of bucket `bid`; on a miss inspect the chain slot
`bid * ASSOCIATIVITY + ASSOCIATIVITY - 1`: if empty the key is absent
(return `vertex_t()`), otherwise continue with the bucket named by its
`vid` field. -/
def getVertexLocalLoop (g : GStore) (key : IKey) : Nat → Nat → Option Vertex
  | _, 0 => none
  | bid, fuel + 1 =>
    match findData g key (bid * ASSOCIATIVITY) (ASSOCIATIVITY - 1) with
    | some v => some v
    | none =>
      let c := g.vertices (bid * ASSOCIATIVITY + (ASSOCIATIVITY - 1))
      if c.key ≠ IKey.empty then getVertexLocalLoop g key c.key.vid fuel
      else some Vertex.empty

/-- `GStore::get_vertex_local`, starting from the primary bucket. -/
def get_vertex_local (g : GStore) (key : IKey) : Option Vertex :=
  getVertexLocalLoop g key (key.hash % g.cfg.numBuckets) (g.numSlots + 1)

/-- `GStore::get_edges_local(tid, vid, d, pid, &size)`: look up
`ikey_t(vid, d, pid)`; an empty vertex yields `*size = 0` and `NULL`
(modelled as `(0, [])`), otherwise the `ptr.size` entries at `ptr.off`.
`none` models non-termination of the bucket walk. -/
def get_edges_local (g : GStore) (vid d pid : Nat) : Option (Nat × List Nat) :=
  match get_vertex_local g ⟨vid, d, pid⟩ with
  | none => none
  | some v =>
    if v.key = IKey.empty then some (0, [])
    else some (v.ptr.size, readEdges g v.ptr.off v.ptr.size)

/-- `GStore::get_index_edges_local(tid, pid, d, &sz)`:
`get_edges_local(tid, 0, d, pid, sz)`. -/
def get_index_edges_local (g : GStore) (pid d : Nat) : Option (Nat × List Nat) :=
  get_edges_local g 0 d pid

/-- The `RDMA_Cache`: `NUM_ITEMS` direct-mapped items, each one `vertex_t`
(default-initialized to `vertex_t()`), and the `global_enable_caching`
gate. -/
structure Cache where
  enabled : Bool
  items : Nat → Vertex

/-- `RDMA_Cache::lookup(key, ret)`: when caching is enabled and the item at
`key.hash() % NUM_ITEMS` stores `key`, return it. -/
def Cache.lookup (c : Cache) (key : IKey) : Option Vertex :=
  if c.enabled ∧ (c.items (key.hash % NUM_ITEMS)).key = key then
    some (c.items (key.hash % NUM_ITEMS))
  else none

/-- `RDMA_Cache::insert(v)`: when caching is enabled, overwrite the item at
`v.key.hash() % NUM_ITEMS`. -/
def Cache.insert (c : Cache) (v : Vertex) : Cache :=
  if c.enabled then
    { c with items := fun j => if j = v.key.hash % NUM_ITEMS then v else c.items j }
  else c

/-- The `while (true)` loop of `GStore::get_vertex_remote`: each iteration
reads one whole bucket of `dst`'s slot region through the transport and
scans it exactly as the local walk does; `some (some v)` is the found path
(which the caller also caches), `some none` the empty-chain-slot path
(return `vertex_t()` without caching). -/
def getVertexRemoteLoop (dst : GStore) (key : IKey) : Nat → Nat → Option (Option Vertex)
  | _, 0 => none
  | bid, fuel + 1 =>
    match findData dst key (bid * ASSOCIATIVITY) (ASSOCIATIVITY - 1) with
    | some v => some (some v)
    | none =>
      let c := dst.vertices (bid * ASSOCIATIVITY + (ASSOCIATIVITY - 1))
      if c.key ≠ IKey.empty then getVertexRemoteLoop dst key c.key.vid fuel
      else some none

/-- `GStore::get_vertex_remote(tid, key)` with the transport modelled as a
reader of the owning server's memory region `dst`: consult the cache,
otherwise walk the remote buckets, caching the record on the found path. -/
def get_vertex_remote (c : Cache) (dst : GStore) (key : IKey) : Option (Vertex × Cache) :=
  match c.lookup key with
  | some v => some (v, c)
  | none =>
    match getVertexRemoteLoop dst key (key.hash % dst.cfg.numBuckets) (dst.numSlots + 1) with
    | none => none
    | some (some v) => some (v, c.insert v)
    | some none => some (Vertex.empty, c)

/-- `GStore::get_edges_remote(tid, vid, d, pid, &size)`: find the vertex
record remotely, then read `ptr.size` entries of `dst`'s entry region at
offset `ptr.off` through the transport (the source reads bytes at
`num_slots * sizeof(vertex_t) + off * sizeof(edge_t)`, i.e. entry `off` of
`dst`). -/
def get_edges_remote (c : Cache) (dst : GStore) (vid d pid : Nat) :
    Option ((Nat × List Nat) × Cache) :=
  match get_vertex_remote c dst ⟨vid, d, pid⟩ with
  | none => none
  | some (v, c') =>
    if v.key = IKey.empty then some ((0, []), c')
    else some ((v.ptr.size, readEdges dst v.ptr.off v.ptr.size), c')

/-- `GStore::get_edges_global(tid, vid, d, pid, &sz)` on the server `sid`
of a cluster `stores`: local when `mymath::hash_mod(vid, global_num_servers)`
equals `sid`, else remote against the owning server's region. -/
def get_edges_global (numServers : Nat) (stores : Nat → GStore) (sid : Nat) (c : Cache)
    (vid d pid : Nat) : Option ((Nat × List Nat) × Cache) :=
  if hash_mod vid numServers = sid then
    match get_edges_local (stores sid) vid d pid with
    | none => none
    | some r => some (r, c)
  else get_edges_remote c (stores (hash_mod vid numServers)) vid d pid

/-- Split off the maximal run of triples whose `(s, p)` equals that of the
head `t` (the inner `while` of `insert_normal` compares `spo[e]` against the
run head `spo[s]`): returns the run tail and the remainder. -/
def runSplitSP (t : Triple) : List Triple → List Triple × List Triple
  | [] => ([], [])
  | u :: rest =>
    if u.s = t.s ∧ u.p = t.p then
      let r := runSplitSP t rest
      (u :: r.1, r.2)
    else ([], u :: rest)

/-- Split off the maximal run of triples whose `(o, p)` equals that of the
head `t` (the second grouping loop of `insert_normal`). -/
def runSplitOP (t : Triple) : List Triple → List Triple × List Triple
  | [] => ([], [])
  | u :: rest =>
    if u.o = t.o ∧ u.p = t.p then
      let r := runSplitOP t rest
      (u :: r.1, r.2)
    else ([], u :: rest)

/-- The first grouping loop of `insert_normal`: walk `spo`, and for each
maximal `(s, p)` run insert the key `(s, OUT, p)`, record the pointer
`(run length, off)`, and write the objects of the run at `off`.  The
explicit `fuel` (instantiated with the list length, and decremented once
per run) only serves structural recursion: every run consumes at least its
head, so the out-of-fuel branch is unreachable from `insert_normal`. -/
def outPass : Nat → GStore → Nat → List Triple → GRes × Nat
  | _, g, off, [] => (.ok g, off)
  | 0, _, off, _ :: _ => (.diverge, off)
  | fuel + 1, g, off, t :: rest =>
    let run := (runSplitSP t rest).1
    let rest' := (runSplitSP t rest).2
    match insert_key g ⟨t.s, OUT, t.p⟩ with
    | .ok g1 slot =>
      let n := run.length + 1
      let g2 := g1.setPtr slot ⟨n, off⟩
      let g3 := writeEdges g2 off (t.o :: run.map (·.o))
      outPass fuel g3 (off + n) rest'
    | .fatal f => (.fatal f, off)
    | .diverge => (.diverge, off)

/-- The second grouping loop of `insert_normal`: walk the remainder of
`ops`, and for each maximal `(o, p)` run insert the key `(o, IN, p)`,
record the pointer, and write the subjects of the run. -/
def inPass : Nat → GStore → Nat → List Triple → GRes × Nat
  | _, g, off, [] => (.ok g, off)
  | 0, _, off, _ :: _ => (.diverge, off)
  | fuel + 1, g, off, t :: rest =>
    let run := (runSplitOP t rest).1
    let rest' := (runSplitOP t rest).2
    match insert_key g ⟨t.o, IN, t.p⟩ with
    | .ok g1 slot =>
      let n := run.length + 1
      let g2 := g1.setPtr slot ⟨n, off⟩
      let g3 := writeEdges g2 off (t.s :: run.map (·.s))
      inPass fuel g3 (off + n) rest'
    | .fatal f => (.fatal f, off)
    | .diverge => (.diverge, off)

/-- `type_triples`: the length of the prefix of `ops` whose objects satisfy
`is_tpid` (the `while (type_triples < ops.size() && is_tpid(...))` loop). -/
def typeTriples (g : GStore) (ops : List Triple) : Nat :=
  (ops.takeWhile (fun t => g.cfg.is_tpid t.o)).length

/-- `GStore::insert_normal(spo, ops)` (versatile mode disabled): count and
skip the type prefix of `ops`, reserve `|spo| + |ops| - type_triples`
entries, then run the OUT pass over `spo` and the IN pass over the rest of
`ops`. -/
def insert_normal (g : GStore) (spo ops : List Triple) : GRes :=
  let tt := typeTriples g ops
  match allocEdges g (spo.length + ops.length - tt) with
  | none => .fatal .entryCap
  | some (g0, off) =>
    match outPass spo.length g0 off spo with
    | (.ok g1, off1) =>
      (inPass (ops.dropWhile (fun t => g.cfg.is_tpid t.o)).length g1 off1
        (ops.dropWhile (fun t => g.cfg.is_tpid t.o))).1
    | (r, _) => r

/-- The three concurrent maps of the index phase, modelled as association
lists in first-insertion order. -/
structure IdxMaps where
  tidx : List (Nat × List Nat)
  pidxIn : List (Nat × List Nat)
  pidxOut : List (Nat × List Nat)
deriving DecidableEq, Repr

/-- `map.insert(a, id); a->second.push_back(v)`: append `v` to the list of
`id`, creating the entry if absent. -/
def appendAL (m : List (Nat × List Nat)) (id v : Nat) : List (Nat × List Nat) :=
  match m with
  | [] => [(id, [v])]
  | (k, l) :: rest =>
    if k = id then (k, l ++ [v]) :: rest
    else (k, l) :: appendAL rest id v

/-- One data slot of the `insert_index` scan: classify the slot's key and
append to the corresponding map; an `(IN, TYPE_ID)` key is
`assert(false)`. -/
def scanSlotStep (g : GStore) (m : IdxMaps) (slot : Nat) : Option IdxMaps :=
  let k := (g.vertices slot).key
  if k = IKey.empty then some m
  else
    let sz := (g.vertices slot).ptr.size
    let off := (g.vertices slot).ptr.off
    if k.dir = IN then
      if k.pid = PREDICATE_ID then some m
      else if k.pid = TYPE_ID then none
      else some { m with pidxOut := appendAL m.pidxOut k.pid k.vid }
    else
      if k.pid = PREDICATE_ID then some m
      else if k.pid = TYPE_ID then
        some { m with tidx := (readEdges g off sz).foldl (fun t e => appendAL t e k.vid) m.tidx }
      else some { m with pidxIn := appendAL m.pidxIn k.pid k.vid }

/-- Scan the `ASSOCIATIVITY - 1` data slots of one bucket. -/
def scanBucket (g : GStore) (m : IdxMaps) (bid : Nat) : Option IdxMaps :=
  (List.range (ASSOCIATIVITY - 1)).foldlM
    (fun acc i => scanSlotStep g acc (bid * ASSOCIATIVITY + i)) m

/-- The scan phase of `insert_index`: every data slot of every bucket
(main and indirect), in order (the source distributes the buckets over
threads; the claims below depend only on membership, not order). -/
def scanAll (g : GStore) : Option IdxMaps :=
  (List.range (g.cfg.numBuckets + g.cfg.numBucketsExt)).foldlM
    (fun acc b => scanBucket g acc b) ⟨[], [], []⟩

/-- `GStore::insert_index_map(map, d)`: for each `(id, list)` pair allocate
`|list|` entries, insert the key `(0, d, id)`, store the pointer, and write
the list. -/
def insertIndexMapLoop (g : GStore) (d : Nat) : List (Nat × List Nat) → GRes
  | [] => .ok g
  | (id, lst) :: rest =>
    match allocEdges g lst.length with
    | none => .fatal .entryCap
    | some (g0, off) =>
      match insert_key g0 ⟨0, d, id⟩ with
      | .ok g1 slot =>
        let g2 := g1.setPtr slot ⟨lst.length, off⟩
        insertIndexMapLoop (writeEdges g2 off lst) d rest
      | .fatal f => .fatal f
      | .diverge => .diverge

/-- `GStore::insert_index()` (versatile mode disabled): scan all buckets,
then materialize `tidx_map` and `pidx_in_map` with direction `IN` and
`pidx_out_map` with direction `OUT`, in that order. -/
def insert_index (g : GStore) : GRes :=
  match scanAll g with
  | none => .fatal .inTypeAssert
  | some maps =>
    match insertIndexMapLoop g IN maps.tidx with
    | .ok g1 =>
      match insertIndexMapLoop g1 IN maps.pidxIn with
      | .ok g2 => insertIndexMapLoop g2 OUT maps.pidxOut
      | r => r
    | r => r

/-- Run `insert_key` on each key in turn (the build's key-insertion steps,
without pointer records), stopping at the first failure. -/
def insertKeys : GStore → List IKey → GRes
  | g, [] => .ok g
  | g, k :: rest =>
    match insert_key g k with
    | .ok g' _ => insertKeys g' rest
    | .fatal f => .fatal f
    | .diverge => .diverge

/-- `true` iff `insert_key` completed. -/
def IRes.isOk : IRes → Bool
  | .ok _ _ => true
  | _ => false

/-- The store after `insert_key`, or `d` on failure. -/
def IRes.storeD : IRes → GStore → GStore
  | .ok g _, _ => g
  | _, d => d

/-- The slot returned by `insert_key`, or `d` on failure. -/
def IRes.slotD : IRes → Nat → Nat
  | .ok _ s, _ => s
  | _, d => d

/-- All chain slots (offset `ASSOCIATIVITY - 1` of each bucket of the table)
hold the empty key. -/
def ChainFree (g : GStore) : Prop :=
  ∀ b, b < g.cfg.numBuckets + g.cfg.numBucketsExt →
    (g.vertices (b * ASSOCIATIVITY + (ASSOCIATIVITY - 1))).key = IKey.empty

/-- Every slot of every not-yet-allocated overflow bucket holds the empty
key. -/
def ExtFresh (g : GStore) : Prop :=
  ∀ b, b < g.cfg.numBuckets + g.cfg.numBucketsExt →
    g.cfg.numBuckets + g.lastExt ≤ b →
    ∀ i, i < ASSOCIATIVITY → (g.vertices (b * ASSOCIATIVITY + i)).key = IKey.empty

/-- Every non-empty key of the slot region satisfies `P`. -/
def KeyOk (g : GStore) (P : IKey → Prop) : Prop :=
  ∀ i, i < g.numSlots → (g.vertices i).key = IKey.empty ∨ P (g.vertices i).key

/-- Every non-trivial record held by the cache agrees with a local lookup
against the owning server's region. -/
def CacheValid (c : Cache) (dst : GStore) : Prop :=
  ∀ idx, (c.items idx).key ≠ IKey.empty →
    get_vertex_local dst (c.items idx).key = some (c.items idx)

/-- The association list binds `v` under `id`. -/
def ALmem (m : List (Nat × List Nat)) (id v : Nat) : Prop :=
  ∃ l, (id, l) ∈ m ∧ v ∈ l

/-- States reachable by the build operations: construction plus `init()`,
then any successful `insert_normal` and `insert_index` calls. -/
inductive Reachable : GStore → Prop where
  | base (cfg : Config) (mem : Nat → Vertex) (emem : Nat → Nat) (r : Nat) :
      Reachable ((GStore.construct cfg mem emem r).init)
  | normal (g g' : GStore) (spo ops : List Triple) :
      Reachable g → insert_normal g spo ops = .ok g' → Reachable g'
  | index (g g' : GStore) : Reachable g → insert_index g = .ok g' → Reachable g'

/-- The result of scanning only the primary bucket of `key`: what every
lookup returns when all chain slots are empty. -/
def primLookup (g : GStore) (key : IKey) : Vertex :=
  (findData g key ((key.hash % g.cfg.numBuckets) * ASSOCIATIVITY)
    (ASSOCIATIVITY - 1)).getD Vertex.empty

/-- Small test configuration (N = 1, 4 main buckets, 4 overflow buckets,
64 entries, type/predicate ids below 8). -/
def testCfg : Config := ⟨4, 4, 64, 1, 8⟩

/-- Test configuration whose id threshold is 49 (type/predicate ids below
49, vertex ids from 49 up). -/
def testCfg49 : Config := ⟨4, 4, 64, 1, 49⟩

/-- All-zero slot region. -/
def zeroMem : Nat → Vertex := fun _ => Vertex.empty

/-- All-zero entry region. -/
def zeroEdges : Nat → Nat := fun _ => 0

/-- An initialized empty store over `testCfg`. -/
def store0 : GStore := (GStore.construct testCfg zeroMem zeroEdges 0).init

/-- An initialized empty store over `testCfg49`. -/
def store49 : GStore := (GStore.construct testCfg49 zeroMem zeroEdges 0).init

/-- The single triple `(10, 5, 20)` of end-to-end scenario 1. -/
def spoC1 : List Triple := [⟨10, 5, 20⟩]

/-- Scenario 1 store after `insert_normal`. -/
def scen1Mid : GStore := (insert_normal store0 spoC1 spoC1).getD store0

/-- Scenario 1 store after `insert_index`. -/
def scen1Final : GStore := (insert_index scen1Mid).getD store0

/-- The single type triple `(10, rdf:type = 1, 7)` of end-to-end
scenario 2. -/
def spoC7 : List Triple := [⟨10, 1, 7⟩]

/-- Scenario 2 store after `insert_normal`. -/
def scen7Mid : GStore := (insert_normal store0 spoC7 spoC7).getD store0

/-- Scenario 2 store after `insert_index`. -/
def scen7Final : GStore := (insert_index scen7Mid).getD store0

/-- Eight triples with one subject and eight distinct predicates, sorted by
`(s, p, o)`; under the key hash all eight OUT keys fall into bucket 1, one
more than its seven data slots.  The objects are type ids of `testCfg49`,
so the list is also sorted by object and forms a pure type prefix when read
as `ops`. -/
def spoC2 : List Triple :=
  [⟨64, 2, 41⟩, ⟨64, 4, 42⟩, ⟨64, 6, 43⟩, ⟨64, 8, 44⟩,
   ⟨64, 10, 45⟩, ⟨64, 12, 46⟩, ⟨64, 14, 47⟩, ⟨64, 16, 48⟩]

/-- The same eight triples ordered by `(o, p, s)` (the object order agrees
with the predicate order here). -/
def opsC2 : List Triple := spoC2

/-- The store built by `insert_normal` from scenario `spoC2`/`opsC2`. -/
def scen2Store : GStore := (insert_normal store49 spoC2 opsC2).getD store49

/-- Seven keys that fill all data slots of bucket 3 of `store0`. -/
def keysC4 : List IKey :=
  [⟨65, 1, 5⟩, ⟨66, 1, 5⟩, ⟨67, 1, 5⟩, ⟨68, 1, 5⟩, ⟨69, 1, 5⟩, ⟨70, 1, 5⟩, ⟨71, 1, 5⟩]

/-- `store0` with bucket 3 full. -/
def scen4Base : GStore := (insertKeys store0 keysC4).getD store0

/-- Store after the first `insert_key` of `(2, OUT, 5)` into `scen4Base`. -/
def scen4A : GStore := (insert_key scen4Base ⟨2, 1, 5⟩).storeD store0

/-- Store after the second (duplicate) `insert_key` of `(2, OUT, 5)`. -/
def scen4B : GStore := (insert_key scen4A ⟨2, 1, 5⟩).storeD store0

/-- Eight distinct keys that all hash to bucket 1 of `store0`. -/
def keysC8 : List IKey :=
  [⟨65, 1, 2⟩, ⟨66, 1, 2⟩, ⟨67, 1, 2⟩, ⟨68, 1, 2⟩, ⟨69, 1, 2⟩, ⟨70, 1, 2⟩, ⟨71, 1, 2⟩,
   ⟨72, 1, 2⟩]

/-- `store0` after inserting the eight colliding keys. -/
def scen8Store : GStore := (insertKeys store0 keysC8).getD store0

/-- `store0` after inserting only the first seven colliding keys. -/
def scen10Base : GStore := (insertKeys store0 (keysC8.take 7)).getD store0

/-- The store produced by the eighth (overflowing) insert. -/
def scen10After : GStore := (insert_key scen10Base ⟨72, 1, 2⟩).storeD store0

/-- Description of the effect of a successful `insert_key g key = (g', j)`:
configuration, entry region and `last_entry` untouched; no pointer record
changed; the key sits at slot `j`, which is never a chain slot; and the
slot-region writes are exactly one (fresh key into a previously empty slot)
or, when an overflow bucket was allocated, at most two (the new bucket id
into the previously empty slot just *after* the full bucket, and the key
into the first slot of the new bucket). -/
structure InsEffect (g g' : GStore) (key : IKey) (j : Nat) : Prop where
  cfg : g'.cfg = g.cfg
  edges : g'.edges = g.edges
  lastEntry : g'.lastEntry = g.lastEntry
  ptr : ∀ i, (g'.vertices i).ptr = (g.vertices i).ptr
  keyAt : (g'.vertices j).key = key
  jlt : j < g.numSlots
  jres : j % ASSOCIATIVITY ≠ ASSOCIATIVITY - 1
  ext : g'.lastExt = g.lastExt ∨ g'.lastExt = g.lastExt + 1
  noalloc : g'.lastExt = g.lastExt →
    (g.vertices j).key = IKey.empty ∧ ∀ i, i ≠ j → g'.vertices i = g.vertices i
  alloc : g'.lastExt = g.lastExt + 1 →
    g.lastExt < g.cfg.numBucketsExt ∧
    j = (g.cfg.numBuckets + g.lastExt) * ASSOCIATIVITY ∧
    ∃ c, c % ASSOCIATIVITY = 0 ∧ (g.vertices c).key = IKey.empty ∧
      (∀ i, i ≠ j → i ≠ c → g'.vertices i = g.vertices i) ∧
      (c ≠ j → (g'.vertices c).key = ⟨g.cfg.numBuckets + g.lastExt, 0, 0⟩)

/-! ## Basic facts about the state updates -/

@[simp]
theorem setKey_vertices (g : GStore) (i : Nat) (k : IKey) (j : Nat) :
    (g.setKey i k).vertices j = if j = i then ⟨k, (g.vertices i).ptr⟩ else g.vertices j := rfl

@[simp]
theorem setKey_cfg (g : GStore) (i : Nat) (k : IKey) : (g.setKey i k).cfg = g.cfg := rfl

@[simp]
theorem setKey_edges (g : GStore) (i : Nat) (k : IKey) : (g.setKey i k).edges = g.edges := rfl

@[simp]
theorem setKey_lastExt (g : GStore) (i : Nat) (k : IKey) : (g.setKey i k).lastExt = g.lastExt := rfl

@[simp]
theorem setKey_lastEntry (g : GStore) (i : Nat) (k : IKey) :
    (g.setKey i k).lastEntry = g.lastEntry := rfl

@[simp]
theorem setKeyVid_vertices (g : GStore) (i v j : Nat) :
    (g.setKeyVid i v).vertices j = if j = i then
      ⟨⟨v, (g.vertices i).key.dir, (g.vertices i).key.pid⟩, (g.vertices i).ptr⟩
    else g.vertices j := rfl

@[simp]
theorem setKeyVid_cfg (g : GStore) (i v : Nat) : (g.setKeyVid i v).cfg = g.cfg := rfl

@[simp]
theorem setKeyVid_edges (g : GStore) (i v : Nat) : (g.setKeyVid i v).edges = g.edges := rfl

@[simp]
theorem setKeyVid_lastExt (g : GStore) (i v : Nat) : (g.setKeyVid i v).lastExt = g.lastExt := rfl

@[simp]
theorem setKeyVid_lastEntry (g : GStore) (i v : Nat) :
    (g.setKeyVid i v).lastEntry = g.lastEntry := rfl

@[simp]
theorem setPtr_vertices (g : GStore) (i : Nat) (p : IPtr) (j : Nat) :
    (g.setPtr i p).vertices j = if j = i then ⟨(g.vertices i).key, p⟩ else g.vertices j := rfl

@[simp]
theorem setPtr_cfg (g : GStore) (i : Nat) (p : IPtr) : (g.setPtr i p).cfg = g.cfg := rfl

@[simp]
theorem setPtr_edges (g : GStore) (i : Nat) (p : IPtr) : (g.setPtr i p).edges = g.edges := rfl

@[simp]
theorem setPtr_lastExt (g : GStore) (i : Nat) (p : IPtr) : (g.setPtr i p).lastExt = g.lastExt := rfl

@[simp]
theorem setPtr_lastEntry (g : GStore) (i : Nat) (p : IPtr) :
    (g.setPtr i p).lastEntry = g.lastEntry := rfl

@[simp]
theorem setEdge_vertices (g : GStore) (i v : Nat) : (g.setEdge i v).vertices = g.vertices := rfl

@[simp]
theorem setEdge_edges (g : GStore) (i v j : Nat) :
    (g.setEdge i v).edges j = if j = i then v else g.edges j := rfl

@[simp]
theorem setEdge_cfg (g : GStore) (i v : Nat) : (g.setEdge i v).cfg = g.cfg := rfl

@[simp]
theorem setEdge_lastExt (g : GStore) (i v : Nat) : (g.setEdge i v).lastExt = g.lastExt := rfl

@[simp]
theorem setEdge_lastEntry (g : GStore) (i v : Nat) :
    (g.setEdge i v).lastEntry = g.lastEntry := rfl

@[simp]
theorem numSlots_congr_cfg (g g' : GStore) (h : g'.cfg = g.cfg) : g'.numSlots = g.numSlots := by
  simp [GStore.numSlots, h]

/-! ## Facts about the bucket scans -/

theorem scanSlots_emptyAt (g : GStore) (key : IKey) :
    ∀ n s j, scanSlots g key s n = .emptyAt j →
      s ≤ j ∧ j < s + n ∧ (g.vertices j).key = IKey.empty := by
  intro n
  induction n with
  | zero => intro s j h; simp [scanSlots] at h
  | succ m ih =>
    intro s j h
    rw [scanSlots] at h
    split at h
    · simp at h
    · split at h
      · rename_i hemp
        cases h
        exact ⟨Nat.le_refl _, by omega, hemp⟩
      · have := ih (s + 1) j h
        exact ⟨by omega, by omega, this.2.2⟩

theorem scanSlots_full (g : GStore) (key : IKey) :
    ∀ n s j, scanSlots g key s n = .full j → j = s + n := by
  intro n
  induction n with
  | zero => intro s j h; rw [scanSlots] at h; cases h; omega
  | succ m ih =>
    intro s j h
    rw [scanSlots] at h
    split at h
    · simp at h
    · split at h
      · simp at h
      · have := ih (s + 1) j h
        omega

theorem scanSlots_of_not_present (g : GStore) (key : IKey) :
    ∀ n s, (∀ d, d < n → (g.vertices (s + d)).key ≠ key) →
      (∀ j, scanSlots g key s n ≠ .dup j) := by
  intro n
  induction n with
  | zero => intro s _ j h; rw [scanSlots] at h; simp at h
  | succ m ih =>
    intro s hnp j h
    rw [scanSlots] at h
    split at h
    · rename_i hk
      exact hnp 0 (by omega) (by simpa using hk)
    · split at h
      · simp at h
      · exact ih (s + 1) (fun d hd => by
          have := hnp (d + 1) (by omega)
          simpa [Nat.add_assoc, Nat.add_comm 1 d] using this) j h

theorem findData_none_iff (g : GStore) (key : IKey) :
    ∀ n s, findData g key s n = none ↔ ∀ d, d < n → (g.vertices (s + d)).key ≠ key := by
  intro n
  induction n with
  | zero => intro s; simp [findData]
  | succ m ih =>
    intro s
    rw [findData]
    split
    · rename_i hk
      constructor
      · intro h; simp at h
      · intro h; exact absurd hk (by simpa using h 0 (by omega))
    · rename_i hk
      rw [ih (s + 1)]
      constructor
      · intro h d hd
        cases d with
        | zero => simpa using hk
        | succ d' => have := h d' (by omega); simpa [Nat.add_assoc, Nat.add_comm 1 d'] using this
      · intro h d hd
        have := h (d + 1) (by omega)
        simpa [Nat.add_assoc, Nat.add_comm 1 d] using this

theorem findData_some (g : GStore) (key : IKey) :
    ∀ n s v, findData g key s n = some v →
      v.key = key ∧ ∃ d, d < n ∧ v = g.vertices (s + d) := by
  intro n
  induction n with
  | zero => intro s v h; simp [findData] at h
  | succ m ih =>
    intro s v h
    rw [findData] at h
    split at h
    · rename_i hk
      cases h
      exact ⟨hk, 0, by omega, by simp⟩
    · obtain ⟨h1, d, hd, h2⟩ := ih (s + 1) v h
      exact ⟨h1, d + 1, by omega, by rwa [Nat.add_assoc, Nat.add_comm 1 d] at h2⟩


/-! ## The effect of `insert_key` -/

theorem aligned_add_le (a m A : Nat) (h1 : A ∣ a) (h2 : A ∣ m) (h3 : a < m) :
    a + A ≤ m := by
  obtain ⟨x, rfl⟩ := h1
  obtain ⟨y, rfl⟩ := h2
  have hxy : x < y := by
    by_contra hc
    exact absurd (Nat.mul_le_mul_left A (Nat.le_of_not_lt hc)) (Nat.not_le_of_lt h3)
  calc A * x + A = A * (x + 1) := by ring
  _ ≤ A * y := Nat.mul_le_mul_left A hxy

theorem insertKeyLoop_ok : ∀ (fuel : Nat) (g g' : GStore) (key : IKey) (s j : Nat),
    s % ASSOCIATIVITY = 0 →
    insertKeyLoop g key s fuel = .ok g' j → InsEffect g g' key j := by
  intro fuel
  induction fuel with
  | zero => intro g g' key s j _ h; rw [insertKeyLoop] at h; cases h
  | succ n ih =>
    intro g g' key s j hal h
    have hA : ASSOCIATIVITY = 8 := rfl
    have hdvd : ASSOCIATIVITY ∣ g.numSlots :=
      ⟨g.cfg.numBuckets + g.cfg.numBucketsExt, Nat.mul_comm _ _⟩
    rw [insertKeyLoop] at h
    by_cases hs : s < g.numSlots
    · rw [if_pos hs] at h
      rcases hscan : scanSlots g key s (ASSOCIATIVITY - 1) with j0 | j0 | j0 <;>
        rw [hscan] at h <;> dsimp only at h
      · cases h
      · -- empty data slot found: single write
        obtain ⟨hle, hlt, hemp⟩ := scanSlots_emptyAt g key _ s j0 hscan
        cases h
        have hsA : s + ASSOCIATIVITY ≤ g.numSlots :=
          aligned_add_le s g.numSlots ASSOCIATIVITY (Nat.dvd_of_mod_eq_zero hal) hdvd hs
        refine ⟨rfl, rfl, rfl, ?_, by simp, by omega, ?_, Or.inl rfl, ?_, ?_⟩
        · intro i; by_cases hij : i = j <;> simp [hij]
        · rw [hA] at hal hlt ⊢; omega
        · intro _
          exact ⟨hemp, fun i hij => by simp [hij]⟩
        · intro hcon; simp at hcon
      · -- bucket full: the source inspects the slot after the bucket
        have hj0 : j0 = s + (ASSOCIATIVITY - 1) := scanSlots_full g key _ s j0 hscan
        split at h
        · -- chain jump: no write in this iteration
          exact ih g g' key _ j (Nat.mul_mod_left _ _) h
        · rename_i hch
          push_neg at hch
          split at h
          · rename_i hcap
            cases h
            have hEA : (g.cfg.numBuckets + g.lastExt) * ASSOCIATIVITY + ASSOCIATIVITY ≤
                g.numSlots := by
              calc (g.cfg.numBuckets + g.lastExt) * ASSOCIATIVITY + ASSOCIATIVITY
                  = (g.cfg.numBuckets + g.lastExt + 1) * ASSOCIATIVITY := by ring
              _ ≤ (g.cfg.numBuckets + g.cfg.numBucketsExt) * ASSOCIATIVITY :=
                  Nat.mul_le_mul_right ASSOCIATIVITY (by omega)
            refine ⟨rfl, rfl, rfl, ?_, by simp, by omega, ?_, Or.inr rfl, ?_, ?_⟩
            · intro i
              by_cases h1 : i = (g.cfg.numBuckets + g.lastExt) * ASSOCIATIVITY <;>
                by_cases h2 : i = j0 + 1 <;> simp [h1, h2] <;>
                (try (split <;> simp_all))
            · rw [hA]; omega
            · intro hcon; simp at hcon
            · intro _
              refine ⟨hcap, rfl, j0 + 1, ?_, hch, ?_, ?_⟩
              · rw [hA] at hal hj0 ⊢; omega
              · intro i hi1 hi2; simp [hi1, hi2]
              · intro hne
                simp only [setKey_vertices, if_neg hne, setKeyVid_vertices, if_pos rfl]
                rw [hch]
                rfl
          · cases h
    · rw [if_neg hs] at h; cases h

/-- The master effect lemma at the `insert_key` entry point. -/
theorem insert_key_ok (g g' : GStore) (key : IKey) (j : Nat)
    (h : insert_key g key = .ok g' j) : InsEffect g g' key j :=
  insertKeyLoop_ok _ g g' key _ j (Nat.mul_mod_left _ _) h

theorem insert_key_lastExt_le (g g' : GStore) (key : IKey) (j : Nat)
    (h : insert_key g key = .ok g' j) : g.lastExt ≤ g'.lastExt := by
  rcases (insert_key_ok g g' key j h).ext with he | he <;> omega

theorem insert_key_keyChar (g g' : GStore) (key : IKey) (j : Nat)
    (h : insert_key g key = .ok g' j) (i : Nat) :
    (g'.vertices i).key = (g.vertices i).key ∨ (g'.vertices i).key = key ∨
      (g'.vertices i).key = ⟨g.cfg.numBuckets + g.lastExt, 0, 0⟩ := by
  have e := insert_key_ok g g' key j h
  rcases e.ext with he | he
  · by_cases hij : i = j
    · subst hij; exact Or.inr (Or.inl e.keyAt)
    · exact Or.inl (by rw [(e.noalloc he).2 i hij])
  · obtain ⟨-, -, c, -, -, hfr, hcv⟩ := e.alloc he
    by_cases hij : i = j
    · subst hij; exact Or.inr (Or.inl e.keyAt)
    · by_cases hic : i = c
      · subst hic
        by_cases hcj : i = j
        · exact absurd hcj hij
        · exact Or.inr (Or.inr (hcv hcj))
      · exact Or.inl (by rw [hfr i hij hic])

theorem insert_key_frame_nonempty (g g' : GStore) (key : IKey) (j : Nat)
    (h : insert_key g key = .ok g' j) (hna : g'.lastExt = g.lastExt) (i : Nat)
    (hne : (g.vertices i).key ≠ IKey.empty) : g'.vertices i = g.vertices i := by
  have e := insert_key_ok g g' key j h
  obtain ⟨hj, hfr⟩ := e.noalloc hna
  by_cases hij : i = j
  · subst hij; exact absurd hj hne
  · exact hfr i hij

theorem insert_key_ChainFree (g g' : GStore) (key : IKey) (j : Nat)
    (h : insert_key g key = .ok g' j) (hcf : ChainFree g) : ChainFree g' := by
  have e := insert_key_ok g g' key j h
  intro b hb
  rw [e.cfg] at hb
  have hres : (b * ASSOCIATIVITY + (ASSOCIATIVITY - 1)) % ASSOCIATIVITY = ASSOCIATIVITY - 1 := by
    have : ASSOCIATIVITY = 8 := rfl
    rw [this]; omega
  have hnej : b * ASSOCIATIVITY + (ASSOCIATIVITY - 1) ≠ j := by
    intro hc; exact e.jres (by rw [← hc, hres])
  rcases e.ext with he | he
  · rw [(e.noalloc he).2 _ hnej]; exact hcf b hb
  · obtain ⟨-, -, c, hcres, -, hfr, -⟩ := e.alloc he
    have hnec : b * ASSOCIATIVITY + (ASSOCIATIVITY - 1) ≠ c := by
      intro hc
      rw [← hc] at hcres
      rw [hres] at hcres
      cases hcres
    rw [hfr _ hnej hnec]; exact hcf b hb

theorem insert_key_KeyOk (g g' : GStore) (key : IKey) (j : Nat) (P : IKey → Prop)
    (h : insert_key g key = .ok g' j) (hk : KeyOk g P) (hkey : P key)
    (hjunk : ∀ E, P ⟨E, 0, 0⟩) : KeyOk g' P := by
  intro i hi
  have e := insert_key_ok g g' key j h
  rw [numSlots_congr_cfg g g' e.cfg] at hi
  rcases insert_key_keyChar g g' key j h i with hc | hc | hc
  · rw [hc]; exact hk i hi
  · rw [hc]; exact Or.inr hkey
  · rw [hc]; exact Or.inr (hjunk _)

/-! ## Entry-region writes -/

@[simp]
theorem setPtr_key (g : GStore) (i : Nat) (p : IPtr) (x : Nat) :
    ((g.setPtr i p).vertices x).key = (g.vertices x).key := by
  by_cases h : x = i <;> simp [h]

theorem writeEdges_vertices : ∀ (l : List Nat) (g : GStore) (off : Nat),
    (writeEdges g off l).vertices = g.vertices := by
  intro l
  induction l with
  | nil => intro g off; rfl
  | cons v rest ih => intro g off; rw [writeEdges, ih]; rfl

theorem writeEdges_cfg : ∀ (l : List Nat) (g : GStore) (off : Nat),
    (writeEdges g off l).cfg = g.cfg := by
  intro l
  induction l with
  | nil => intro g off; rfl
  | cons v rest ih => intro g off; rw [writeEdges, ih]; rfl

theorem writeEdges_lastExt : ∀ (l : List Nat) (g : GStore) (off : Nat),
    (writeEdges g off l).lastExt = g.lastExt := by
  intro l
  induction l with
  | nil => intro g off; rfl
  | cons v rest ih => intro g off; rw [writeEdges, ih]; rfl

theorem writeEdges_lastEntry : ∀ (l : List Nat) (g : GStore) (off : Nat),
    (writeEdges g off l).lastEntry = g.lastEntry := by
  intro l
  induction l with
  | nil => intro g off; rfl
  | cons v rest ih => intro g off; rw [writeEdges, ih]; rfl

theorem writeEdges_edges_lt : ∀ (l : List Nat) (g : GStore) (off i : Nat), i < off →
    (writeEdges g off l).edges i = g.edges i := by
  intro l
  induction l with
  | nil => intro g off i _; rfl
  | cons v rest ih =>
    intro g off i hi
    rw [writeEdges, ih _ _ _ (by omega)]
    simp
    omega

theorem writeEdges_edges_ge : ∀ (l : List Nat) (g : GStore) (off i : Nat),
    off + l.length ≤ i → (writeEdges g off l).edges i = g.edges i := by
  intro l
  induction l with
  | nil => intro g off i _; rfl
  | cons v rest ih =>
    intro g off i hi
    simp only [List.length_cons] at hi
    rw [writeEdges, ih _ _ _ (by omega)]
    simp
    omega

theorem writeEdges_edges_at : ∀ (l : List Nat) (g : GStore) (off d : Nat) (hd : d < l.length),
    (writeEdges g off l).edges (off + d) = l.get ⟨d, hd⟩ := by
  intro l
  induction l with
  | nil => intro g off d hd; simp at hd
  | cons v rest ih =>
    intro g off d hd
    rw [writeEdges]
    cases d with
    | zero =>
      simp only [Nat.add_zero]
      rw [writeEdges_edges_lt rest _ (off + 1) off (by omega)]
      simp
    | succ d' =>
      have := ih (g.setEdge off v) (off + 1) d' (by simpa using Nat.lt_of_succ_lt_succ hd)
      rw [show off + (d' + 1) = off + 1 + d' by omega, this]
      rfl

@[simp]
theorem readEdges_length (g : GStore) (off n : Nat) : (readEdges g off n).length = n := by
  simp [readEdges]

theorem readEdges_writeEdges (l : List Nat) (g : GStore) (off : Nat) :
    readEdges (writeEdges g off l) off l.length = l := by
  refine List.ext_getElem (by simp) ?_
  intro d h1 h2
  have h1' : d < l.length := by simpa using h2
  have := writeEdges_edges_at l g off d h1'
  simp only [readEdges, List.getElem_map, List.getElem_range]
  rw [this]
  simp [List.get_eq_getElem]

theorem readEdges_congr (g g' : GStore) (off n : Nat)
    (h : ∀ d, d < n → g'.edges (off + d) = g.edges (off + d)) :
    readEdges g' off n = readEdges g off n := by
  simp only [readEdges]
  exact List.map_congr_left (fun d hd => h d (List.mem_range.mp hd))

theorem allocEdges_ok (g g0 : GStore) (n off : Nat) (h : allocEdges g n = some (g0, off)) :
    g0.cfg = g.cfg ∧ g0.vertices = g.vertices ∧ g0.edges = g.edges ∧
      g0.lastExt = g.lastExt ∧ g0.lastEntry = g.lastEntry + n ∧ off = g.lastEntry ∧
      g.lastEntry + n < g.cfg.numEntries := by
  rw [allocEdges] at h
  split at h
  · cases h; exact ⟨rfl, rfl, rfl, rfl, rfl, rfl, by assumption⟩
  · cases h

/-! ## Chain slots stay empty: the `ChainFree` invariant -/

theorem ChainFree_congr (g g' : GStore) (hcfg : g'.cfg = g.cfg)
    (hkeys : ∀ i, (g'.vertices i).key = (g.vertices i).key) (h : ChainFree g) :
    ChainFree g' := by
  intro b hb
  rw [hcfg] at hb
  rw [hkeys]
  exact h b hb

theorem setPtr_ChainFree (g : GStore) (i : Nat) (p : IPtr) (h : ChainFree g) :
    ChainFree (g.setPtr i p) :=
  ChainFree_congr g _ rfl (fun _ => setPtr_key ..) h

theorem writeEdges_ChainFree (g : GStore) (off : Nat) (l : List Nat) (h : ChainFree g) :
    ChainFree (writeEdges g off l) :=
  ChainFree_congr g _ (writeEdges_cfg ..) (fun i => by rw [writeEdges_vertices]) h

theorem outPass_ChainFree : ∀ (fuel : Nat) (g : GStore) (off : Nat) (l : List Triple)
    (g' : GStore) (off' : Nat),
    outPass fuel g off l = (.ok g', off') → ChainFree g → ChainFree g' := by
  intro fuel
  induction fuel with
  | zero =>
    intro g off l g' off' h hcf
    cases l with
    | nil =>
      simp only [outPass] at h
      injection h with h1 h2
      injection h1 with h1
      cases h1
      exact hcf
    | cons t rest =>
      simp only [outPass] at h
      simp at h
  | succ n ih =>
    intro g off l g' off' h hcf
    cases l with
    | nil =>
      simp only [outPass] at h
      injection h with h1 h2
      injection h1 with h1
      cases h1
      exact hcf
    | cons t rest =>
      simp only [outPass] at h
      rcases hins : insert_key g ⟨t.s, OUT, t.p⟩ with ⟨g1, slot⟩ | f | - <;> rw [hins] at h <;>
        dsimp only at h
      · exact ih _ _ _ g' off' h
          (writeEdges_ChainFree _ _ _ (setPtr_ChainFree _ _ _
            (insert_key_ChainFree _ _ _ _ hins hcf)))
      · simp at h
      · simp at h

theorem inPass_ChainFree : ∀ (fuel : Nat) (g : GStore) (off : Nat) (l : List Triple)
    (g' : GStore) (off' : Nat),
    inPass fuel g off l = (.ok g', off') → ChainFree g → ChainFree g' := by
  intro fuel
  induction fuel with
  | zero =>
    intro g off l g' off' h hcf
    cases l with
    | nil =>
      simp only [inPass] at h
      injection h with h1 h2
      injection h1 with h1
      cases h1
      exact hcf
    | cons t rest =>
      simp only [inPass] at h
      simp at h
  | succ n ih =>
    intro g off l g' off' h hcf
    cases l with
    | nil =>
      simp only [inPass] at h
      injection h with h1 h2
      injection h1 with h1
      cases h1
      exact hcf
    | cons t rest =>
      simp only [inPass] at h
      rcases hins : insert_key g ⟨t.o, IN, t.p⟩ with ⟨g1, slot⟩ | f | - <;> rw [hins] at h <;>
        dsimp only at h
      · exact ih _ _ _ g' off' h
          (writeEdges_ChainFree _ _ _ (setPtr_ChainFree _ _ _
            (insert_key_ChainFree _ _ _ _ hins hcf)))
      · simp at h
      · simp at h

theorem insertIndexMapLoop_ChainFree : ∀ (m : List (Nat × List Nat)) (g : GStore) (d : Nat)
    (g' : GStore), insertIndexMapLoop g d m = .ok g' → ChainFree g → ChainFree g' := by
  intro m
  induction m with
  | nil =>
    intro g d g' h hcf
    simp only [insertIndexMapLoop] at h
    cases h
    exact hcf
  | cons e rest ih =>
    intro g d g' h hcf
    obtain ⟨id, lst⟩ := e
    simp only [insertIndexMapLoop] at h
    rcases ha : allocEdges g lst.length with - | ⟨g0, off⟩
    · rw [ha] at h; cases h
    · rw [ha] at h
      dsimp only at h
      rcases hi : insert_key g0 ⟨0, d, id⟩ with ⟨g1, slot⟩ | f | - <;> rw [hi] at h
      · obtain ⟨hcfg, hverts, -, -, -, -, -⟩ := allocEdges_ok g g0 lst.length off ha
        have hcf0 : ChainFree g0 :=
          ChainFree_congr g g0 hcfg (fun i => by rw [hverts]) hcf
        exact ih _ d g' h
          (writeEdges_ChainFree _ _ _ (setPtr_ChainFree _ _ _
            (insert_key_ChainFree _ _ _ _ hi hcf0)))
      · cases h
      · cases h

theorem outPass_lastExt_le : ∀ (fuel : Nat) (g : GStore) (off : Nat) (l : List Triple)
    (g' : GStore) (off' : Nat),
    outPass fuel g off l = (.ok g', off') → g.lastExt ≤ g'.lastExt := by
  intro fuel
  induction fuel with
  | zero =>
    intro g off l g' off' h
    cases l with
    | nil =>
      simp only [outPass] at h
      injection h with h1 h2
      injection h1 with h1
      cases h1
      exact Nat.le_refl _
    | cons t rest =>
      simp only [outPass] at h
      simp at h
  | succ n ih =>
    intro g off l g' off' h
    cases l with
    | nil =>
      simp only [outPass] at h
      injection h with h1 h2
      injection h1 with h1
      cases h1
      exact Nat.le_refl _
    | cons t rest =>
      simp only [outPass] at h
      rcases hins : insert_key g ⟨t.s, OUT, t.p⟩ with ⟨g1, slot⟩ | f | - <;> rw [hins] at h <;>
        dsimp only at h
      · have h1 := insert_key_lastExt_le _ _ _ _ hins
        have h2 := ih _ _ _ g' off' h
        rw [writeEdges_lastExt, setPtr_lastExt] at h2
        omega
      · simp at h
      · simp at h

theorem inPass_lastExt_le : ∀ (fuel : Nat) (g : GStore) (off : Nat) (l : List Triple)
    (g' : GStore) (off' : Nat),
    inPass fuel g off l = (.ok g', off') → g.lastExt ≤ g'.lastExt := by
  intro fuel
  induction fuel with
  | zero =>
    intro g off l g' off' h
    cases l with
    | nil =>
      simp only [inPass] at h
      injection h with h1 h2
      injection h1 with h1
      cases h1
      exact Nat.le_refl _
    | cons t rest =>
      simp only [inPass] at h
      simp at h
  | succ n ih =>
    intro g off l g' off' h
    cases l with
    | nil =>
      simp only [inPass] at h
      injection h with h1 h2
      injection h1 with h1
      cases h1
      exact Nat.le_refl _
    | cons t rest =>
      simp only [inPass] at h
      rcases hins : insert_key g ⟨t.o, IN, t.p⟩ with ⟨g1, slot⟩ | f | - <;> rw [hins] at h <;>
        dsimp only at h
      · have h1 := insert_key_lastExt_le _ _ _ _ hins
        have h2 := ih _ _ _ g' off' h
        rw [writeEdges_lastExt, setPtr_lastExt] at h2
        omega
      · simp at h
      · simp at h

theorem insertIndexMapLoop_lastExt_le : ∀ (m : List (Nat × List Nat)) (g : GStore) (d : Nat)
    (g' : GStore), insertIndexMapLoop g d m = .ok g' → g.lastExt ≤ g'.lastExt := by
  intro m
  induction m with
  | nil =>
    intro g d g' h
    simp only [insertIndexMapLoop] at h
    cases h
    exact Nat.le_refl _
  | cons e rest ih =>
    intro g d g' h
    obtain ⟨id, lst⟩ := e
    simp only [insertIndexMapLoop] at h
    rcases ha : allocEdges g lst.length with - | ⟨g0, off⟩
    · rw [ha] at h; cases h
    · rw [ha] at h
      dsimp only at h
      rcases hi : insert_key g0 ⟨0, d, id⟩ with ⟨g1, slot⟩ | f | - <;> rw [hi] at h
      · obtain ⟨-, -, -, hext, -, -, -⟩ := allocEdges_ok g g0 lst.length off ha
        have h1 := insert_key_lastExt_le _ _ _ _ hi
        have h2 := ih _ d g' h
        rw [writeEdges_lastExt, setPtr_lastExt] at h2
        omega
      · cases h
      · cases h

theorem insert_normal_ok_parts (g : GStore) (spo ops : List Triple) (g' : GStore)
    (h : insert_normal g spo ops = .ok g') :
    ∃ g0 off g1 off1 off2,
      allocEdges g (spo.length + ops.length - typeTriples g ops) = some (g0, off) ∧
      outPass spo.length g0 off spo = (.ok g1, off1) ∧
      inPass (ops.dropWhile (fun t => g.cfg.is_tpid t.o)).length g1 off1
        (ops.dropWhile (fun t => g.cfg.is_tpid t.o)) = (.ok g', off2) := by
  rw [insert_normal] at h
  rcases ha : allocEdges g (spo.length + ops.length - typeTriples g ops) with - | ⟨g0, off⟩ <;>
    rw [ha] at h
  · cases h
  · dsimp only at h
    rcases ho : outPass spo.length g0 off spo with ⟨r1, off1⟩
    rw [ho] at h
    rcases r1 with g1 | f | -
    · dsimp only at h
      rcases hi : inPass (ops.dropWhile (fun t => g.cfg.is_tpid t.o)).length g1 off1
          (ops.dropWhile (fun t => g.cfg.is_tpid t.o)) with ⟨r2, off2⟩
      rw [hi] at h
      rcases r2 with g2 | f | - <;> dsimp only at h <;> cases h
      exact ⟨g0, off, g1, off1, off2, rfl, ho, hi⟩
    · dsimp only at h; cases h
    · dsimp only at h; cases h

theorem insert_normal_ChainFree (g : GStore) (spo ops : List Triple) (g' : GStore)
    (h : insert_normal g spo ops = .ok g') (hcf : ChainFree g) : ChainFree g' := by
  obtain ⟨g0, off, g1, off1, off2, ha, ho, hi⟩ := insert_normal_ok_parts g spo ops g' h
  obtain ⟨hcfg, hverts, -, -, -, -, -⟩ := allocEdges_ok _ _ _ _ ha
  exact inPass_ChainFree _ _ _ _ _ _ hi
    (outPass_ChainFree _ _ _ _ _ _ ho
      (ChainFree_congr g g0 hcfg (fun i => by rw [hverts]) hcf))

theorem insert_normal_lastExt_le (g : GStore) (spo ops : List Triple) (g' : GStore)
    (h : insert_normal g spo ops = .ok g') : g.lastExt ≤ g'.lastExt := by
  obtain ⟨g0, off, g1, off1, off2, ha, ho, hi⟩ := insert_normal_ok_parts g spo ops g' h
  obtain ⟨-, -, -, hext, -, -, -⟩ := allocEdges_ok _ _ _ _ ha
  have h1 := outPass_lastExt_le _ _ _ _ _ _ ho
  have h2 := inPass_lastExt_le _ _ _ _ _ _ hi
  omega

theorem insert_index_ok_parts (g : GStore) (g' : GStore) (h : insert_index g = .ok g') :
    ∃ maps g1 g2, scanAll g = some maps ∧
      insertIndexMapLoop g IN maps.tidx = .ok g1 ∧
      insertIndexMapLoop g1 IN maps.pidxIn = .ok g2 ∧
      insertIndexMapLoop g2 OUT maps.pidxOut = .ok g' := by
  rw [insert_index] at h
  rcases hm : scanAll g with - | maps <;> rw [hm] at h
  · cases h
  · dsimp only at h
    rcases h1 : insertIndexMapLoop g IN maps.tidx with g1 | f | - <;> rw [h1] at h <;>
      dsimp only at h
    · rcases h2 : insertIndexMapLoop g1 IN maps.pidxIn with g2 | f | - <;> rw [h2] at h <;>
        dsimp only at h
      · exact ⟨maps, g1, g2, rfl, h1, h2, h⟩
      · cases h
      · cases h
    · cases h
    · cases h

theorem insert_index_ChainFree (g : GStore) (g' : GStore)
    (h : insert_index g = .ok g') (hcf : ChainFree g) : ChainFree g' := by
  obtain ⟨maps, g1, g2, -, h1, h2, h3⟩ := insert_index_ok_parts g g' h
  exact insertIndexMapLoop_ChainFree _ _ _ _ h3
    (insertIndexMapLoop_ChainFree _ _ _ _ h2
      (insertIndexMapLoop_ChainFree _ _ _ _ h1 hcf))

theorem insert_index_lastExt_le (g : GStore) (g' : GStore)
    (h : insert_index g = .ok g') : g.lastExt ≤ g'.lastExt := by
  obtain ⟨maps, g1, g2, -, h1, h2, h3⟩ := insert_index_ok_parts g g' h
  have e1 := insertIndexMapLoop_lastExt_le _ _ _ _ h1
  have e2 := insertIndexMapLoop_lastExt_le _ _ _ _ h2
  have e3 := insertIndexMapLoop_lastExt_le _ _ _ _ h3
  omega

theorem init_ChainFree (g : GStore) : ChainFree g.init := by
  intro b hb
  have hlt : b * ASSOCIATIVITY + (ASSOCIATIVITY - 1) < g.numSlots := by
    have h1 : b * ASSOCIATIVITY + ASSOCIATIVITY ≤ g.numSlots := by
      calc b * ASSOCIATIVITY + ASSOCIATIVITY = (b + 1) * ASSOCIATIVITY := by ring
      _ ≤ (g.cfg.numBuckets + g.cfg.numBucketsExt) * ASSOCIATIVITY :=
          Nat.mul_le_mul_right ASSOCIATIVITY (by exact hb)
    have : (0 : Nat) < ASSOCIATIVITY := by decide
    omega
  show ((g.init).vertices _).key = IKey.empty
  simp only [GStore.init]
  rw [if_pos hlt]

theorem Reachable_ChainFree (g : GStore) (h : Reachable g) : ChainFree g := by
  induction h with
  | base cfg mem emem r => exact init_ChainFree _
  | normal g g' spo ops hr hok ih => exact insert_normal_ChainFree g spo ops g' hok ih
  | index g g' hr hok ih => exact insert_index_ChainFree g g' hok ih

/-! ## Lookups in chain-free states -/

theorem getVertexLocalLoop_chainFree (g : GStore) (key : IKey) (b : Nat)
    (hb : b < g.cfg.numBuckets + g.cfg.numBucketsExt) (hcf : ChainFree g) :
    ∀ fuel, 1 ≤ fuel →
      getVertexLocalLoop g key b fuel =
        some ((findData g key (b * ASSOCIATIVITY) (ASSOCIATIVITY - 1)).getD Vertex.empty) := by
  intro fuel hf
  obtain ⟨n, rfl⟩ : ∃ n, fuel = n + 1 := ⟨fuel - 1, by omega⟩
  rw [getVertexLocalLoop]
  rcases hfd : findData g key (b * ASSOCIATIVITY) (ASSOCIATIVITY - 1) with - | v
  · dsimp only
    rw [hcf b hb]
    simp
  · rfl

theorem get_vertex_local_chainFree (g : GStore) (key : IKey)
    (hB : 0 < g.cfg.numBuckets) (hcf : ChainFree g) :
    get_vertex_local g key = some (primLookup g key) := by
  rw [get_vertex_local, primLookup]
  exact getVertexLocalLoop_chainFree g key _
    (by exact Nat.lt_of_lt_of_le (Nat.mod_lt _ hB) (Nat.le_add_right _ _))
    hcf _ (by omega)

theorem getVertexRemoteLoop_chainFree (g : GStore) (key : IKey) (b : Nat)
    (hb : b < g.cfg.numBuckets + g.cfg.numBucketsExt) (hcf : ChainFree g) :
    ∀ fuel, 1 ≤ fuel →
      getVertexRemoteLoop g key b fuel =
        some (findData g key (b * ASSOCIATIVITY) (ASSOCIATIVITY - 1)) := by
  intro fuel hf
  obtain ⟨n, rfl⟩ : ∃ n, fuel = n + 1 := ⟨fuel - 1, by omega⟩
  rw [getVertexRemoteLoop]
  rcases hfd : findData g key (b * ASSOCIATIVITY) (ASSOCIATIVITY - 1) with - | v
  · dsimp only
    rw [hcf b hb]
    simp
  · rfl

/-- C5: in every state reachable by the build operations, the bucket walk
from the primary bucket settles within the first bucket — in particular
within `num_buckets_ext + 1` buckets — before finding the probed key or
reaching an empty chain slot, and `get_vertex_local` as well as the walk
inside `get_vertex_remote` terminates (returns a definite vertex) on every
lookup. -/
theorem C5_chain_termination (g : GStore) (hr : Reachable g)
    (hB : 0 < g.cfg.numBuckets) (vid d pid : Nat) :
    ∃ v, getVertexLocalLoop g ⟨vid, d, pid⟩ (IKey.hash ⟨vid, d, pid⟩ % g.cfg.numBuckets)
        (g.cfg.numBucketsExt + 1) = some v ∧
      get_vertex_local g ⟨vid, d, pid⟩ = some v ∧
      (∀ fuel, 1 ≤ fuel →
        getVertexLocalLoop g ⟨vid, d, pid⟩ (IKey.hash ⟨vid, d, pid⟩ % g.cfg.numBuckets) fuel =
          some v) ∧
      ∃ r, getVertexRemoteLoop g ⟨vid, d, pid⟩ (IKey.hash ⟨vid, d, pid⟩ % g.cfg.numBuckets)
        (g.cfg.numBucketsExt + 1) = some r := by
  have hcf := Reachable_ChainFree g hr
  have hb : IKey.hash ⟨vid, d, pid⟩ % g.cfg.numBuckets <
      g.cfg.numBuckets + g.cfg.numBucketsExt :=
    Nat.lt_of_lt_of_le (Nat.mod_lt _ hB) (Nat.le_add_right _ _)
  refine ⟨(findData g ⟨vid, d, pid⟩
      ((IKey.hash ⟨vid, d, pid⟩ % g.cfg.numBuckets) * ASSOCIATIVITY)
      (ASSOCIATIVITY - 1)).getD Vertex.empty, ?_, ?_, ?_, ?_⟩
  · exact getVertexLocalLoop_chainFree g _ _ hb hcf _ (by omega)
  · exact get_vertex_local_chainFree g _ hB hcf
  · intro fuel hf; exact getVertexLocalLoop_chainFree g _ _ hb hcf fuel hf
  · exact ⟨_, getVertexRemoteLoop_chainFree g _ _ hb hcf _ (by omega)⟩

/-! ## Not-found lookups -/

theorem data_slot_lt_numSlots (g : GStore) (b dd : Nat)
    (hb : b < g.cfg.numBuckets + g.cfg.numBucketsExt) (hdd : dd < ASSOCIATIVITY) :
    b * ASSOCIATIVITY + dd < g.numSlots := by
  have : b * ASSOCIATIVITY + ASSOCIATIVITY ≤ g.numSlots := by
    calc b * ASSOCIATIVITY + ASSOCIATIVITY = (b + 1) * ASSOCIATIVITY := by ring
    _ ≤ (g.cfg.numBuckets + g.cfg.numBucketsExt) * ASSOCIATIVITY :=
        Nat.mul_le_mul_right ASSOCIATIVITY (by exact hb)
  omega

theorem get_edges_local_not_present (g : GStore) (vid d pid : Nat)
    (hB : 0 < g.cfg.numBuckets) (hcf : ChainFree g)
    (habs : ∀ i, i < g.numSlots → (g.vertices i).key ≠ ⟨vid, d, pid⟩) :
    get_edges_local g vid d pid = some (0, []) := by
  rw [get_edges_local, get_vertex_local_chainFree g _ hB hcf]
  have hb : IKey.hash ⟨vid, d, pid⟩ % g.cfg.numBuckets <
      g.cfg.numBuckets + g.cfg.numBucketsExt :=
    Nat.lt_of_lt_of_le (Nat.mod_lt _ hB) (Nat.le_add_right _ _)
  have hnone : findData g ⟨vid, d, pid⟩
      ((IKey.hash ⟨vid, d, pid⟩ % g.cfg.numBuckets) * ASSOCIATIVITY)
      (ASSOCIATIVITY - 1) = none := by
    rw [findData_none_iff]
    intro dd hdd
    exact habs _ (data_slot_lt_numSlots g _ dd hb (by omega))
  rw [primLookup, hnone]
  rfl

theorem get_edges_local_all_empty (g : GStore) (vid d pid : Nat)
    (hB : 0 < g.cfg.numBuckets)
    (hemp : ∀ i, i < g.numSlots → (g.vertices i).key = IKey.empty) :
    get_edges_local g vid d pid = some (0, []) := by
  have hcf : ChainFree g := by
    intro b hb
    exact hemp _ (data_slot_lt_numSlots g b _ hb (by decide))
  rw [get_edges_local, get_vertex_local_chainFree g _ hB hcf]
  have hb : IKey.hash ⟨vid, d, pid⟩ % g.cfg.numBuckets <
      g.cfg.numBuckets + g.cfg.numBucketsExt :=
    Nat.lt_of_lt_of_le (Nat.mod_lt _ hB) (Nat.le_add_right _ _)
  rw [primLookup]
  rcases hfd : findData g ⟨vid, d, pid⟩
      ((IKey.hash ⟨vid, d, pid⟩ % g.cfg.numBuckets) * ASSOCIATIVITY)
      (ASSOCIATIVITY - 1) with - | v
  · rfl
  · obtain ⟨hkey, dd, hdd, hv⟩ := findData_some g _ _ _ _ hfd
    have : v.key = IKey.empty := by
      rw [hv]
      exact hemp _ (data_slot_lt_numSlots g _ dd hb (by omega))
    simp only [Option.getD_some]
    rw [this]
    rfl

theorem foldlM_option_id {α β : Type} (f : β → α → Option β) (L : List α) (b : β)
    (h : ∀ acc x, x ∈ L → f acc x = some acc) : L.foldlM f b = some b := by
  induction L generalizing b with
  | nil => rfl
  | cons a rest ih =>
    rw [List.foldlM_cons, h b a (by simp)]
    exact ih b (fun acc x hx => h acc x (by simp [hx]))

theorem scanAll_all_empty (g : GStore)
    (hemp : ∀ i, i < g.numSlots → (g.vertices i).key = IKey.empty) :
    scanAll g = some ⟨[], [], []⟩ := by
  rw [scanAll]
  refine foldlM_option_id _ _ _ ?_
  intro acc b hb
  rw [scanBucket]
  refine foldlM_option_id _ _ _ ?_
  intro acc' i hi
  have hkey : (g.vertices (b * ASSOCIATIVITY + i)).key = IKey.empty := by
    refine hemp _ (data_slot_lt_numSlots g b i ?_ ?_)
    · simpa using List.mem_range.mp hb
    · have := List.mem_range.mp hi
      omega
  rw [scanSlotStep]
  simp [hkey]

theorem insert_index_all_empty (g : GStore)
    (hemp : ∀ i, i < g.numSlots → (g.vertices i).key = IKey.empty) :
    insert_index g = .ok g := by
  rw [insert_index, scanAll_all_empty g hemp]
  rfl

theorem insert_normal_nil (g : GStore) (h : g.lastEntry < g.cfg.numEntries) :
    insert_normal g [] [] = .ok g := by
  rw [insert_normal]
  have halloc : allocEdges g ((0 : Nat) + 0 - typeTriples g []) = some (g, g.lastEntry) := by
    rw [allocEdges]
    rw [if_pos (by simpa [typeTriples] using h)]
    congr 1
  rw [show ([] : List Triple).length + ([] : List Triple).length - typeTriples g [] =
      (0 : Nat) + 0 - typeTriples g [] from rfl, halloc]
  rfl

theorem init_keys (g : GStore) (i : Nat) (hi : i < g.numSlots) :
    ((g.init).vertices i).key = IKey.empty := by
  simp only [GStore.init]
  rw [if_pos hi]

/-- C9: a lookup of a key that is nowhere in the table is the normal
not-found outcome — `size` is set to 0 and the null slice is returned
(modelled as `some (0, [])`, where `some` records that the call returns
normally rather than erroring) — and a store built from the empty triple
set answers every lookup with size 0. -/
theorem C9_not_found :
    (∀ (g : GStore) (vid d pid : Nat), 0 < g.cfg.numBuckets → ChainFree g →
      (∀ i, i < g.numSlots → (g.vertices i).key ≠ ⟨vid, d, pid⟩) →
      get_edges_local g vid d pid = some (0, [])) ∧
    (∀ (cfg : Config) (mem : Nat → Vertex) (emem : Nat → Nat) (r : Nat),
      0 < cfg.numEntries → 0 < cfg.numBuckets →
      ∃ gE, insert_normal ((GStore.construct cfg mem emem r).init) [] [] = .ok gE ∧
        insert_index gE = .ok gE ∧
        ∀ vid d pid, get_edges_local gE vid d pid = some (0, [])) := by
  constructor
  · intro g vid d pid hB hcf habs
    exact get_edges_local_not_present g vid d pid hB hcf habs
  · intro cfg mem emem r hE hB
    set gI := (GStore.construct cfg mem emem r).init with hgI
    have hemp : ∀ i, i < gI.numSlots → (gI.vertices i).key = IKey.empty :=
      fun i hi => init_keys _ i hi
    refine ⟨gI, insert_normal_nil gI (by exact hE), insert_index_all_empty gI hemp, ?_⟩
    intro vid d pid
    exact get_edges_local_all_empty gI vid d pid (by exact hB) hemp

/-- Witness for C9 at a concrete store and concrete keys. -/
theorem C9_not_found_witness :
    get_edges_local store0 9 9 9 = some (0, []) ∧
    ∃ gE, insert_normal ((GStore.construct testCfg zeroMem zeroEdges 0).init) [] [] = .ok gE ∧
      insert_index gE = .ok gE ∧
      ∀ vid d pid, get_edges_local gE vid d pid = some (0, []) :=
  ⟨C9_not_found.1 store0 9 9 9 (by decide) (by unfold ChainFree; decide) (by decide),
   C9_not_found.2 testCfg zeroMem zeroEdges 0 (by decide) (by decide)⟩

/-- Witness for C5 at a concrete reachable store and key. -/
theorem C5_chain_termination_witness :
    ∃ v, getVertexLocalLoop store0 ⟨1, 2, 3⟩ (IKey.hash ⟨1, 2, 3⟩ % store0.cfg.numBuckets)
        (store0.cfg.numBucketsExt + 1) = some v ∧
      get_vertex_local store0 ⟨1, 2, 3⟩ = some v ∧
      (∀ fuel, 1 ≤ fuel →
        getVertexLocalLoop store0 ⟨1, 2, 3⟩ (IKey.hash ⟨1, 2, 3⟩ % store0.cfg.numBuckets) fuel =
          some v) ∧
      ∃ r, getVertexRemoteLoop store0 ⟨1, 2, 3⟩ (IKey.hash ⟨1, 2, 3⟩ % store0.cfg.numBuckets)
        (store0.cfg.numBucketsExt + 1) = some r :=
  C5_chain_termination store0 (Reachable.base testCfg zeroMem zeroEdges 0) (by decide) 1 2 3

/-! ## Remote reads agree with local reads -/

theorem get_edges_local_chainFree_eq (dst : GStore) (vid d pid : Nat)
    (hB : 0 < dst.cfg.numBuckets) (hcf : ChainFree dst) :
    get_edges_local dst vid d pid =
      some (if (primLookup dst ⟨vid, d, pid⟩).key = IKey.empty then (0, [])
        else ((primLookup dst ⟨vid, d, pid⟩).ptr.size,
          readEdges dst (primLookup dst ⟨vid, d, pid⟩).ptr.off
            (primLookup dst ⟨vid, d, pid⟩).ptr.size)) := by
  rw [get_edges_local, get_vertex_local_chainFree dst _ hB hcf]
  by_cases hke : (primLookup dst ⟨vid, d, pid⟩).key = IKey.empty <;> simp [hke]

theorem CacheValid_insert (c : Cache) (dst : GStore) (v : Vertex) (hcv : CacheValid c dst)
    (hv : v.key ≠ IKey.empty → get_vertex_local dst v.key = some v) :
    CacheValid (c.insert v) dst := by
  intro idx hne
  rw [Cache.insert] at hne ⊢
  by_cases he : c.enabled
  · rw [if_pos he] at hne ⊢
    dsimp only at hne ⊢
    by_cases hidx : idx = v.key.hash % NUM_ITEMS
    · rw [if_pos hidx] at hne ⊢
      exact hv hne
    · rw [if_neg hidx] at hne ⊢
      exact hcv idx hne
  · rw [if_neg he] at hne ⊢
    exact hcv idx hne

/-- C3: with the transport modelled as a reader of the owning server's
memory region, `get_edges_remote` returns exactly the size and edge-value
sequence that `get_edges_local` returns on the owning server, for any key
and whether or not caching is enabled (any cache whose entries agree with
the owner's table, in particular the empty or disabled cache), and cache
validity is preserved; moreover `get_edges_global` dispatches to the local
path exactly when `hash_mod(vid, num_servers)` equals the calling server's
`sid`, and to the remote path against the owning server otherwise. -/
theorem C3_remote_local_equal (dst : GStore) (c : Cache) (vid d pid : Nat)
    (hB : 0 < dst.cfg.numBuckets) (hcf : ChainFree dst) (hcv : CacheValid c dst) :
    (∃ r c', get_edges_remote c dst vid d pid = some (r, c') ∧
      get_edges_local dst vid d pid = some r ∧ CacheValid c' dst) ∧
    (∀ (N sid : Nat) (stores : Nat → GStore) (c0 : Cache),
      (hash_mod vid N = sid →
        get_edges_global N stores sid c0 vid d pid =
          match get_edges_local (stores sid) vid d pid with
          | none => none
          | some r => some (r, c0)) ∧
      (hash_mod vid N ≠ sid →
        get_edges_global N stores sid c0 vid d pid =
          get_edges_remote c0 (stores (hash_mod vid N)) vid d pid)) := by
  have hbb : IKey.hash ⟨vid, d, pid⟩ % dst.cfg.numBuckets <
      dst.cfg.numBuckets + dst.cfg.numBucketsExt :=
    Nat.lt_of_lt_of_le (Nat.mod_lt _ hB) (Nat.le_add_right _ _)
  constructor
  · rcases hcl : Cache.lookup c ⟨vid, d, pid⟩ with - | v
    · -- cache miss: the remote bucket walk
      rcases hfd : findData dst ⟨vid, d, pid⟩
          ((IKey.hash ⟨vid, d, pid⟩ % dst.cfg.numBuckets) * ASSOCIATIVITY)
          (ASSOCIATIVITY - 1) with - | w
      · -- key absent
        have hver : get_vertex_remote c dst ⟨vid, d, pid⟩ = some (Vertex.empty, c) := by
          rw [get_vertex_remote, hcl,
            getVertexRemoteLoop_chainFree dst _ _ hbb hcf _ (by omega), hfd]
        refine ⟨(0, []), c, ?_, ?_, hcv⟩
        · rw [get_edges_remote, hver]
          rfl
        · rw [get_edges_local_chainFree_eq dst vid d pid hB hcf, primLookup, hfd]
          rfl
      · -- key found in slot: the record is cached
        have hwkey : w.key = ⟨vid, d, pid⟩ := (findData_some dst _ _ _ _ hfd).1
        have hver : get_vertex_remote c dst ⟨vid, d, pid⟩ = some (w, c.insert w) := by
          rw [get_vertex_remote, hcl,
            getVertexRemoteLoop_chainFree dst _ _ hbb hcf _ (by omega), hfd]
        have hloc : get_vertex_local dst w.key = some w := by
          rw [hwkey, get_vertex_local_chainFree dst _ hB hcf, primLookup, hfd]
          rfl
        have hcv' : CacheValid (c.insert w) dst :=
          CacheValid_insert c dst w hcv (fun _ => hloc)
        by_cases hke : w.key = IKey.empty
        · refine ⟨(0, []), c.insert w, ?_, ?_, hcv'⟩
          · rw [get_edges_remote, hver]
            dsimp only
            rw [if_pos hke]
          · rw [get_edges_local_chainFree_eq dst vid d pid hB hcf, primLookup, hfd]
            simp [hke]
        · refine ⟨(w.ptr.size, readEdges dst w.ptr.off w.ptr.size), c.insert w, ?_, ?_, hcv'⟩
          · rw [get_edges_remote, hver]
            dsimp only
            rw [if_neg hke]
          · rw [get_edges_local_chainFree_eq dst vid d pid hB hcf, primLookup, hfd]
            simp [hke]
    · -- cache hit
      have hv : Cache.lookup c ⟨vid, d, pid⟩ = some v := hcl
      rw [Cache.lookup] at hv
      split at hv
      · rename_i hcond
        cases hv
        have hvkey : (c.items (IKey.hash ⟨vid, d, pid⟩ % NUM_ITEMS)).key = ⟨vid, d, pid⟩ :=
          hcond.2
        have hver : get_vertex_remote c dst ⟨vid, d, pid⟩ =
            some (c.items (IKey.hash ⟨vid, d, pid⟩ % NUM_ITEMS), c) := by
          rw [get_vertex_remote, hcl]
        set w := c.items (IKey.hash ⟨vid, d, pid⟩ % NUM_ITEMS) with hw
        by_cases hke : w.key = IKey.empty
        · -- the probed key is the all-zero key; both sides answer empty
          refine ⟨(0, []), c, ?_, ?_, hcv⟩
          · rw [get_edges_remote, hver]
            dsimp only
            rw [if_pos hke]
          · rw [get_edges_local_chainFree_eq dst vid d pid hB hcf]
            rcases hfd : findData dst ⟨vid, d, pid⟩
                ((IKey.hash ⟨vid, d, pid⟩ % dst.cfg.numBuckets) * ASSOCIATIVITY)
                (ASSOCIATIVITY - 1) with - | u
            · rw [primLookup, hfd]; rfl
            · have hukey : u.key = ⟨vid, d, pid⟩ := (findData_some dst _ _ _ _ hfd).1
              rw [primLookup, hfd]
              simp only [Option.getD_some]
              rw [if_pos (by rw [hukey, ← hvkey, hke])]
        · -- a valid non-trivial cache entry: it equals the local record
          have hlv : get_vertex_local dst w.key = some w := hcv _ hke
          rw [hvkey] at hlv
          rw [get_vertex_local_chainFree dst _ hB hcf] at hlv
          have hwp : w = primLookup dst ⟨vid, d, pid⟩ := by
            injection hlv with h1
            exact h1.symm
          refine ⟨(w.ptr.size, readEdges dst w.ptr.off w.ptr.size), c, ?_, ?_, hcv⟩
          · rw [get_edges_remote, hver]
            dsimp only
            rw [if_neg hke]
          · rw [get_edges_local_chainFree_eq dst vid d pid hB hcf, ← hwp, if_neg hke]
      · cases hv
  · intro N sid stores c0
    constructor
    · intro hd
      rw [get_edges_global, if_pos hd]
    · intro hd
      rw [get_edges_global, if_neg hd]

/-- Witness for C3: a loopback cluster built from the single-triple store,
probed with a fresh (enabled) cache. -/
theorem C3_remote_local_equal_witness :
    (∃ r c', get_edges_remote ⟨true, fun _ => Vertex.empty⟩ scen1Mid 10 1 5 = some (r, c') ∧
      get_edges_local scen1Mid 10 1 5 = some r ∧ CacheValid c' scen1Mid) ∧
    (∀ (N sid : Nat) (stores : Nat → GStore) (c0 : Cache),
      (hash_mod 10 N = sid →
        get_edges_global N stores sid c0 10 1 5 =
          match get_edges_local (stores sid) 10 1 5 with
          | none => none
          | some r => some (r, c0)) ∧
      (hash_mod 10 N ≠ sid →
        get_edges_global N stores sid c0 10 1 5 =
          get_edges_remote c0 (stores (hash_mod 10 N)) 10 1 5)) :=
  C3_remote_local_equal scen1Mid ⟨true, fun _ => Vertex.empty⟩ 10 1 5 (by decide)
    (by unfold ChainFree; decide) (fun idx hne => absurd rfl hne)

/-- C6 (evidence of the defect): the constructor assigns `last_entry = 0`
but never assigns `last_ext`, and `init()` only clears slot keys; a replica
constructed over memory whose residual value for `last_ext` is 5 still
reads `last_ext = 5` after construction and `init()`, while `last_entry`
is 0. -/
theorem C6_lastExt_uninitialized :
    ((GStore.construct testCfg zeroMem zeroEdges 5).init).lastExt = 5 ∧
    ((GStore.construct testCfg zeroMem zeroEdges 5).init).lastEntry = 0 ∧
    ((GStore.construct testCfg zeroMem zeroEdges 0).init).lastExt = 0 :=
  ⟨rfl, rfl, rfl⟩

/-- C2 (evidence of the defect): eight triples, sorted by `(s, p, o)` (and,
read as `ops`, by `(o, p, s)` with all objects type ids), whose eight OUT
keys all hash to bucket 1.  `insert_normal` completes, the eighth key
`(64, OUT, 16)` is stored (slot 32, the first slot of overflow bucket 4),
but the lookup of its run returns size 0 with the null slice: the chain
pointer was written to slot 16 — the first slot of bucket 2 — instead of
chain slot 15, which stays empty. -/
theorem C2_run_lookup_fails :
    (insert_normal store49 spoC2 opsC2).isOk = true ∧
    (⟨64, 16, 48⟩ : Triple) ∈ spoC2 ∧
    get_edges_local scen2Store 64 OUT 16 = some (0, []) ∧
    get_edges_local scen2Store 64 OUT 16 ≠ some (1, [48]) ∧
    (scen2Store.vertices 32).key = ⟨64, OUT, 16⟩ ∧
    (scen2Store.vertices 16).key = ⟨4, 0, 0⟩ ∧
    (scen2Store.vertices 15).key = IKey.empty := by decide

/-- C4 (evidence of the defect): after bucket 3 is filled by seven keys, a
first `insert_key (2, OUT, 5)` succeeds (slot 32, overwriting the chain
link it had just created), and a second `insert_key` of the *same* key also
returns successfully, at slot 16: the duplicate is silently created (both
slots hold the key) instead of failing the duplicate assertion. -/
theorem C4_duplicate_silent :
    (insertKeys store0 keysC4).isOk = true ∧
    (insert_key scen4Base ⟨2, 1, 5⟩).isOk = true ∧
    (insert_key scen4Base ⟨2, 1, 5⟩).slotD 999 = 32 ∧
    (insert_key scen4A ⟨2, 1, 5⟩).isOk = true ∧
    (insert_key scen4A ⟨2, 1, 5⟩).slotD 999 = 16 ∧
    (scen4B.vertices 32).key = ⟨2, 1, 5⟩ ∧
    (scen4B.vertices 16).key = ⟨2, 1, 5⟩ := by decide

/-- C8 (evidence of the defect): eight distinct keys hashing to bucket 1
are all inserted successfully and allocate exactly one overflow bucket
(`⌈8/7⌉ − 1 = 1`), but the eighth key — stored at slot 32, the first slot
of overflow bucket 4 — is not retrievable: `get_vertex_local` returns the
empty vertex for it, because the bucket-1 chain slot 15 was never written. -/
theorem C8_overflow_key_lost :
    (insertKeys store0 keysC8).isOk = true ∧
    scen8Store.lastExt = 1 ∧
    (scen8Store.vertices 32).key = ⟨72, 1, 2⟩ ∧
    get_vertex_local scen8Store ⟨72, 1, 2⟩ = some Vertex.empty ∧
    get_vertex_local scen8Store ⟨71, 1, 2⟩ = some ⟨⟨71, 1, 2⟩, ⟨0, 0⟩⟩ := by decide

/-- Counterexample to C10 as stated: the eighth (overflowing) insert does
allocate a bucket, but writes the new bucket id into slot 16 — index
`≡ 0 (mod ASSOCIATIVITY)`, the first data slot of the *next* bucket — and
no chain slot (index `≡ ASSOCIATIVITY − 1`) of the table changes or is even
non-empty. -/
theorem C10_counterexample :
    (insertKeys store0 (keysC8.take 7)).isOk = true ∧
    (insert_key scen10Base ⟨72, 1, 2⟩).isOk = true ∧
    (insert_key scen10Base ⟨72, 1, 2⟩).slotD 999 = 32 ∧
    scen10After.lastExt = scen10Base.lastExt + 1 ∧
    (scen10After.vertices 16).key = ⟨4, 0, 0⟩ ∧
    16 % ASSOCIATIVITY = 0 ∧
    (∀ cs, cs < 64 → cs % ASSOCIATIVITY = ASSOCIATIVITY - 1 →
      scen10After.vertices cs = scen10Base.vertices cs ∧
      (scen10After.vertices cs).key = IKey.empty) := by decide

/-- C10 (amended): a successful `insert_key` of a fresh key writes at most
two slots, never touches any pointer record or the entry region, and never
writes a chain slot: the key goes to one previously-empty slot at an index
`≢ ASSOCIATIVITY − 1 (mod ASSOCIATIVITY)`, and, only when an overflow
bucket is allocated, the new bucket id additionally goes to the
previously-empty slot just after the full bucket — an index
`≡ 0 (mod ASSOCIATIVITY)`, the first slot of the next bucket, not the
chain slot (the claim's "previously-empty chain slot" does not exist: no
slot at index `≡ ASSOCIATIVITY − 1` is written).  Emptiness of the key's
own target on the allocation path uses the assumption that not-yet
allocated overflow buckets are empty. -/
theorem C10_insert_frame (g g' : GStore) (key : IKey) (j : Nat)
    (hfresh : ∀ i, i < g.numSlots → (g.vertices i).key ≠ key)
    (hext : ExtFresh g)
    (h : insert_key g key = .ok g' j) :
    (∀ i, (g'.vertices i).ptr = (g.vertices i).ptr) ∧
    g'.edges = g.edges ∧ g'.lastEntry = g.lastEntry ∧
    (g'.vertices j).key = key ∧ j % ASSOCIATIVITY ≠ ASSOCIATIVITY - 1 ∧
    (g.vertices j).key = IKey.empty ∧
    (g'.lastExt = g.lastExt → ∀ i, i ≠ j → g'.vertices i = g.vertices i) ∧
    (g'.lastExt = g.lastExt + 1 →
      ∃ c, c % ASSOCIATIVITY = 0 ∧ (g.vertices c).key = IKey.empty ∧
        (∀ i, i ≠ j → i ≠ c → g'.vertices i = g.vertices i) ∧
        (c ≠ j → (g'.vertices c).key = ⟨g.cfg.numBuckets + g.lastExt, 0, 0⟩)) ∧
    (g'.lastExt = g.lastExt ∨ g'.lastExt = g.lastExt + 1) := by
  have e := insert_key_ok g g' key j h
  have hjempty : (g.vertices j).key = IKey.empty := by
    rcases e.ext with he | he
    · exact (e.noalloc he).1
    · obtain ⟨hcap, hj, -⟩ := e.alloc he
      have := hext (g.cfg.numBuckets + g.lastExt) (by omega) (by omega) 0 (by decide)
      rw [hj]
      simpa using this
  exact ⟨e.ptr, e.edges, e.lastEntry, e.keyAt, e.jres, hjempty,
    fun he => (e.noalloc he).2,
    fun he => (e.alloc he).2.2,
    e.ext⟩

/-- Witness for C10 (amended): a fresh key inserted into the empty store. -/
theorem C10_insert_frame_witness :
    ∃ g' j, insert_key store0 ⟨100, 1, 3⟩ = .ok g' j ∧
      ((∀ i, (g'.vertices i).ptr = (store0.vertices i).ptr) ∧
       g'.edges = store0.edges ∧ g'.lastEntry = store0.lastEntry ∧
       (g'.vertices j).key = ⟨100, 1, 3⟩ ∧ j % ASSOCIATIVITY ≠ ASSOCIATIVITY - 1 ∧
       (store0.vertices j).key = IKey.empty ∧
       (g'.lastExt = store0.lastExt → ∀ i, i ≠ j → g'.vertices i = store0.vertices i) ∧
       (g'.lastExt = store0.lastExt + 1 →
         ∃ c, c % ASSOCIATIVITY = 0 ∧ (store0.vertices c).key = IKey.empty ∧
           (∀ i, i ≠ j → i ≠ c → g'.vertices i = store0.vertices i) ∧
           (c ≠ j → (g'.vertices c).key = ⟨store0.cfg.numBuckets + store0.lastExt, 0, 0⟩)) ∧
       (g'.lastExt = store0.lastExt ∨ g'.lastExt = store0.lastExt + 1)) :=
  ⟨(insert_key store0 ⟨100, 1, 3⟩).storeD store0, (insert_key store0 ⟨100, 1, 3⟩).slotD 0,
    rfl, C10_insert_frame store0 _ ⟨100, 1, 3⟩ _ (by decide) (by unfold ExtFresh; decide) rfl⟩

/-! ## Content of the index materialization -/

theorem insertIndexMapLoop_spec : ∀ (m : List (Nat × List Nat)) (g : GStore) (d : Nat)
    (g' : GStore), insertIndexMapLoop g d m = .ok g' → g'.lastExt = g.lastExt →
    (∀ i, (g.vertices i).key ≠ IKey.empty → g'.vertices i = g.vertices i) ∧
    (∀ i, i < g.lastEntry → g'.edges i = g.edges i) ∧
    g'.cfg = g.cfg ∧ g.lastEntry ≤ g'.lastEntry ∧
    (∀ i, (g'.vertices i).key = (g.vertices i).key ∨ (g'.vertices i).key.vid = 0) ∧
    (∀ id lst, (id, lst) ∈ m → (⟨0, d, id⟩ : IKey) ≠ IKey.empty →
      ∀ v, v ∈ lst → ∃ j sz eoff,
        g'.vertices j = ⟨⟨0, d, id⟩, ⟨sz, eoff⟩⟩ ∧ v ∈ readEdges g' eoff sz ∧
        eoff + sz ≤ g'.lastEntry) := by
  intro m
  induction m with
  | nil =>
    intro g d g' h hna
    simp only [insertIndexMapLoop] at h
    cases h
    exact ⟨fun i _ => rfl, fun i _ => rfl, rfl, Nat.le_refl _,
      fun i => Or.inl rfl, fun id lst hmem => by simp at hmem⟩
  | cons e rest ih =>
    intro g d g' h hna
    obtain ⟨id, lst⟩ := e
    simp only [insertIndexMapLoop] at h
    rcases ha : allocEdges g lst.length with - | ⟨ga, off⟩
    · rw [ha] at h; cases h
    · rw [ha] at h
      dsimp only at h
      rcases hi : insert_key ga ⟨0, d, id⟩ with ⟨g1, slot⟩ | f | - <;> rw [hi] at h
      · -- names for the intermediate stores
        obtain ⟨hacfg, haverts, haedges, haext, hale, hoff, hcap⟩ :=
          allocEdges_ok g ga lst.length off ha
        have e1 := insert_key_ok ga g1 ⟨0, d, id⟩ slot hi
        -- the overall run allocates no overflow bucket, hence neither does this insert
        have hmono3 := insertIndexMapLoop_lastExt_le rest _ d g' h
        rw [writeEdges_lastExt, setPtr_lastExt] at hmono3
        have hna1 : g1.lastExt = ga.lastExt := by
          rcases e1.ext with he | he
          · exact he
          · omega
        obtain ⟨hslotempty, hframe1⟩ := e1.noalloc hna1
        -- facts about g3 = writeEdges (setPtr ...) off lst
        set g2 := g1.setPtr slot ⟨lst.length, off⟩ with hg2
        set g3 := writeEdges g2 off lst with hg3
        have hg3verts : ∀ i, i ≠ slot → g3.vertices i = g.vertices i := by
          intro i hislot
          rw [hg3, writeEdges_vertices, hg2]
          simp only [setPtr_vertices, if_neg hislot]
          rw [hframe1 i hislot, haverts]
        have hg3slot : g3.vertices slot = ⟨⟨0, d, id⟩, ⟨lst.length, off⟩⟩ := by
          rw [hg3, writeEdges_vertices, hg2]
          simp [e1.keyAt]
        have hg3le : g3.lastEntry = g.lastEntry + lst.length := by
          rw [hg3, writeEdges_lastEntry, hg2, setPtr_lastEntry, e1.lastEntry, hale]
        have hg3cfg : g3.cfg = g.cfg := by
          rw [hg3, writeEdges_cfg, hg2, setPtr_cfg, e1.cfg, hacfg]
        have hg3edges_lt : ∀ i, i < g.lastEntry → g3.edges i = g.edges i := by
          intro i hile
          rw [hg3, writeEdges_edges_lt lst _ off i (by omega)]
          rw [hg2]
          show g1.edges i = g.edges i
          rw [e1.edges, haedges]
        have hna3 : g'.lastExt = g3.lastExt := by
          have : g3.lastExt = g.lastExt := by
            rw [hg3, writeEdges_lastExt, hg2, setPtr_lastExt, hna1, haext]
          omega
        obtain ⟨ih1, ih2, ih3, ih4, ih5, ih6⟩ := ih g3 d g' h hna3
        have hslotkeyne : (g3.vertices slot).key ≠ IKey.empty ∨
            (⟨0, d, id⟩ : IKey) = IKey.empty := by
          rw [hg3slot]
          by_cases hke : (⟨0, d, id⟩ : IKey) = IKey.empty
          · exact Or.inr hke
          · exact Or.inl hke
        refine ⟨?_, ?_, ?_, ?_, ?_, ?_⟩
        · -- nonempty slots of g preserved
          intro i hne
          have hislot : i ≠ slot := by
            intro hc
            rw [hc] at hne
            exact hne (by rw [haverts] at hslotempty; exact hslotempty)
          rw [ih1 i (by rw [hg3verts i hislot]; exact hne), hg3verts i hislot]
        · -- low entries preserved
          intro i hile
          rw [ih2 i (by omega), hg3edges_lt i hile]
        · rw [ih3, hg3cfg]
        · omega
        · -- key characterization
          intro i
          rcases ih5 i with hc | hc
          · by_cases hislot : i = slot
            · right
              rw [hc, hislot, hg3slot]
            · left
              rw [hc, hg3verts i hislot]
          · exact Or.inr hc
        · -- content
          intro id' lst' hmem hne v hv
          rcases List.mem_cons.mp hmem with hhead | htail
          · -- the entry materialized by this step
            obtain ⟨hid, hlst⟩ := Prod.mk.injEq .. ▸ hhead
            rw [hid] at hne ⊢
            rw [hlst] at hv
            refine ⟨slot, lst.length, off, ?_, ?_, ?_⟩
            · rw [ih1 slot (by rw [hg3slot]; exact hne), hg3slot]
            · have hread3 : readEdges g3 off lst.length = lst := by
                rw [hg3]
                exact readEdges_writeEdges lst g2 off
              have hread' : readEdges g' off lst.length = readEdges g3 off lst.length := by
                refine readEdges_congr g3 g' off lst.length ?_
                intro dd hdd
                exact ih2 (off + dd) (by omega)
              rw [hread', hread3]
              exact hv
            · omega
          · exact ih6 id' lst' htail hne v hv
      · cases h
      · cases h

/-! ## The index scan: membership in the three maps -/

theorem foldlM_option_mono {α β : Type} (f : β → α → Option β) (Q : β → Prop) :
    ∀ (L : List α) (b0 bf : β), L.foldlM f b0 = some bf →
    (∀ b b' a, a ∈ L → f b a = some b' → Q b → Q b') → Q b0 → Q bf := by
  intro L
  induction L with
  | nil =>
    intro b0 bf h _ hq
    simp only [List.foldlM_nil] at h
    cases h
    exact hq
  | cons a rest ih =>
    intro b0 bf h hmono hq
    rw [List.foldlM_cons] at h
    rcases hfa : f b0 a with - | b1 <;> rw [hfa] at h
    · exact Option.noConfusion h
    · exact ih b1 bf h (fun b b' x hx => hmono b b' x (by simp [hx]))
        (hmono b0 b1 a (by simp) hfa hq)

theorem foldlM_option_invariant {α β : Type} (f : β → α → Option β) (Q : β → Prop)
    (hmonoQ : ∀ b b' a, f b a = some b' → Q b → Q b') :
    ∀ (L : List α) (b0 bf : β), L.foldlM f b0 = some bf →
    ∀ x, x ∈ L → (∀ b b', f b x = some b' → Q b') → Q bf := by
  intro L
  induction L with
  | nil =>
    intro b0 bf h x hx
    simp at hx
  | cons a rest ih =>
    intro b0 bf h x hx hest
    rw [List.foldlM_cons] at h
    rcases hfa : f b0 a with - | b1 <;> rw [hfa] at h
    · exact Option.noConfusion h
    · rcases List.mem_cons.mp hx with hxa | hxr
      · subst hxa
        exact foldlM_option_mono f Q rest b1 bf h (fun b b' y _ => hmonoQ b b' y)
          (hest b0 b1 hfa)
      · exact ih b1 bf h x hxr hest

theorem foldlM_option_total {α β : Type} (f : β → α → Option β) :
    ∀ (L : List α) (b0 : β), (∀ b a, a ∈ L → ∃ b', f b a = some b') →
    ∃ bf, L.foldlM f b0 = some bf := by
  intro L
  induction L with
  | nil => intro b0 _; exact ⟨b0, rfl⟩
  | cons a rest ih =>
    intro b0 hstep
    obtain ⟨b1, hb1⟩ := hstep b0 a (by simp)
    obtain ⟨bf, hbf⟩ := ih b1 (fun b x hx => hstep b x (by simp [hx]))
    exact ⟨bf, by rw [List.foldlM_cons, hb1]; simpa using hbf⟩

theorem ALmem_appendAL_self : ∀ (m : List (Nat × List Nat)) (id v : Nat),
    ALmem (appendAL m id v) id v := by
  intro m
  induction m with
  | nil => intro id v; exact ⟨[v], by simp [appendAL], by simp⟩
  | cons e rest ih =>
    intro id v
    obtain ⟨k, l⟩ := e
    rw [appendAL]
    by_cases hk : k = id
    · rw [if_pos hk]
      exact ⟨l ++ [v], by simp [hk], by simp⟩
    · rw [if_neg hk]
      obtain ⟨l', hmem, hv⟩ := ih id v
      exact ⟨l', by simp [hmem], hv⟩

theorem ALmem_appendAL_mono : ∀ (m : List (Nat × List Nat)) (id v id' v' : Nat),
    ALmem m id' v' → ALmem (appendAL m id v) id' v' := by
  intro m
  induction m with
  | nil => intro id v id' v' h; obtain ⟨l', hmem, -⟩ := h; simp at hmem
  | cons e rest ih =>
    intro id v id' v' h
    obtain ⟨k, l⟩ := e
    obtain ⟨l', hmem, hv⟩ := h
    rw [appendAL]
    by_cases hk : k = id
    · rw [if_pos hk]
      rcases List.mem_cons.mp hmem with hhd | htl
      · obtain ⟨h1, h2⟩ := Prod.mk.injEq .. ▸ hhd
        exact ⟨l ++ [v], by simp [h1], by rw [h2] at hv; simp [hv]⟩
      · exact ⟨l', by simp [htl], hv⟩
    · rw [if_neg hk]
      rcases List.mem_cons.mp hmem with hhd | htl
      · obtain ⟨h1, h2⟩ := Prod.mk.injEq .. ▸ hhd
        exact ⟨l, by simp [h1], by rw [h2] at hv; exact hv⟩
      · obtain ⟨l2, hmem2, hv2⟩ := ih id v id' v' ⟨l', htl, hv⟩
        exact ⟨l2, by simp [hmem2], hv2⟩

theorem ALmem_foldl_appendAL_mono (v : Nat) : ∀ (vs : List Nat)
    (m : List (Nat × List Nat)) (t' v' : Nat), ALmem m t' v' →
    ALmem (vs.foldl (fun acc e => appendAL acc e v) m) t' v' := by
  intro vs
  induction vs with
  | nil => intro m t' v' h; exact h
  | cons e rest ih =>
    intro m t' v' h
    rw [List.foldl_cons]
    exact ih _ t' v' (ALmem_appendAL_mono m e v t' v' h)

theorem ALmem_foldl_appendAL_self (v : Nat) : ∀ (vs : List Nat)
    (m : List (Nat × List Nat)) (t : Nat), t ∈ vs →
    ALmem (vs.foldl (fun acc e => appendAL acc e v) m) t v := by
  intro vs
  induction vs with
  | nil => intro m t h; simp at h
  | cons e rest ih =>
    intro m t h
    rw [List.foldl_cons]
    rcases List.mem_cons.mp h with hhd | htl
    · subst hhd
      exact ALmem_foldl_appendAL_mono v rest _ t v (ALmem_appendAL_self m t v)
    · exact ih _ t htl

theorem scanSlotStep_fields (g : GStore) (m m' : IdxMaps) (slot : Nat)
    (h : scanSlotStep g m slot = some m') :
    (m'.pidxIn = m.pidxIn ∨ ∃ p v, m'.pidxIn = appendAL m.pidxIn p v) ∧
    (m'.pidxOut = m.pidxOut ∨ ∃ p v, m'.pidxOut = appendAL m.pidxOut p v) ∧
    (m'.tidx = m.tidx ∨ ∃ (vs : List Nat) (v : Nat), m'.tidx =
      vs.foldl (fun acc e => appendAL acc e v) m.tidx) := by
  rw [scanSlotStep] at h
  split at h
  · cases h; exact ⟨Or.inl rfl, Or.inl rfl, Or.inl rfl⟩
  · dsimp only at h
    split at h
    · split at h
      · cases h; exact ⟨Or.inl rfl, Or.inl rfl, Or.inl rfl⟩
      · split at h
        · cases h
        · cases h
          exact ⟨Or.inl rfl, Or.inr ⟨_, _, rfl⟩, Or.inl rfl⟩
    · split at h
      · cases h; exact ⟨Or.inl rfl, Or.inl rfl, Or.inl rfl⟩
      · split at h
        · cases h
          exact ⟨Or.inl rfl, Or.inl rfl, Or.inr ⟨_, _, rfl⟩⟩
        · cases h
          exact ⟨Or.inr ⟨_, _, rfl⟩, Or.inl rfl, Or.inl rfl⟩

theorem scanSlotStep_pidxIn_mono (g : GStore) (m m' : IdxMaps) (slot p v : Nat)
    (h : scanSlotStep g m slot = some m') (hq : ALmem m.pidxIn p v) : ALmem m'.pidxIn p v := by
  rcases (scanSlotStep_fields g m m' slot h).1 with he | ⟨p', v', he⟩
  · rwa [he]
  · rw [he]; exact ALmem_appendAL_mono _ p' v' p v hq

theorem scanSlotStep_pidxOut_mono (g : GStore) (m m' : IdxMaps) (slot p v : Nat)
    (h : scanSlotStep g m slot = some m') (hq : ALmem m.pidxOut p v) :
    ALmem m'.pidxOut p v := by
  rcases (scanSlotStep_fields g m m' slot h).2.1 with he | ⟨p', v', he⟩
  · rwa [he]
  · rw [he]; exact ALmem_appendAL_mono _ p' v' p v hq

theorem scanSlotStep_tidx_mono (g : GStore) (m m' : IdxMaps) (slot t v : Nat)
    (h : scanSlotStep g m slot = some m') (hq : ALmem m.tidx t v) : ALmem m'.tidx t v := by
  rcases (scanSlotStep_fields g m m' slot h).2.2 with he | ⟨vs, v', he⟩
  · rwa [he]
  · rw [he]; exact ALmem_foldl_appendAL_mono v' vs _ t v hq

theorem scanSlotStep_pidxIn_insert (g : GStore) (m m' : IdxMaps) (slot v p : Nat)
    (hkey : (g.vertices slot).key = ⟨v, OUT, p⟩)
    (hp0 : p ≠ PREDICATE_ID) (hp1 : p ≠ TYPE_ID)
    (h : scanSlotStep g m slot = some m') : ALmem m'.pidxIn p v := by
  rw [scanSlotStep, hkey] at h
  rw [if_neg (by simp [IKey.empty, OUT])] at h
  dsimp only at h
  rw [if_neg (by simp [IN, OUT])] at h
  rw [if_neg (by simpa [PREDICATE_ID] using hp0)] at h
  rw [if_neg (by simpa [TYPE_ID] using hp1)] at h
  cases h
  exact ALmem_appendAL_self _ p v

theorem scanSlotStep_pidxOut_insert (g : GStore) (m m' : IdxMaps) (slot v p : Nat)
    (hkey : (g.vertices slot).key = ⟨v, IN, p⟩) (hv : v ≠ 0)
    (hp0 : p ≠ PREDICATE_ID) (hp1 : p ≠ TYPE_ID)
    (h : scanSlotStep g m slot = some m') : ALmem m'.pidxOut p v := by
  rw [scanSlotStep, hkey] at h
  rw [if_neg (by simp [IKey.empty, IN]; intro hc; exact absurd hc hv)] at h
  dsimp only at h
  rw [if_pos (by simp [IN])] at h
  rw [if_neg (by simpa [PREDICATE_ID] using hp0)] at h
  rw [if_neg (by simpa [TYPE_ID] using hp1)] at h
  cases h
  exact ALmem_appendAL_self _ p v

theorem scanSlotStep_tidx_insert (g : GStore) (m m' : IdxMaps) (slot s t : Nat)
    (hkey : (g.vertices slot).key = ⟨s, OUT, TYPE_ID⟩)
    (ht : t ∈ readEdges g (g.vertices slot).ptr.off (g.vertices slot).ptr.size)
    (h : scanSlotStep g m slot = some m') : ALmem m'.tidx t s := by
  rw [scanSlotStep, hkey] at h
  rw [if_neg (by simp [IKey.empty, OUT])] at h
  dsimp only at h
  rw [if_neg (by simp [IN, OUT])] at h
  rw [if_neg (by simp [PREDICATE_ID, TYPE_ID])] at h
  rw [if_pos rfl] at h
  cases h
  exact ALmem_foldl_appendAL_self s _ _ t ht

theorem scanAll_pidxIn_mem (g : GStore) (maps : IdxMaps) (hscan : scanAll g = some maps)
    (b i v p : Nat) (hb : b < g.cfg.numBuckets + g.cfg.numBucketsExt)
    (hi : i < ASSOCIATIVITY - 1)
    (hkey : (g.vertices (b * ASSOCIATIVITY + i)).key = ⟨v, OUT, p⟩)
    (hp0 : p ≠ PREDICATE_ID) (hp1 : p ≠ TYPE_ID) : ALmem maps.pidxIn p v := by
  rw [scanAll] at hscan
  refine foldlM_option_invariant _ (fun m => ALmem m.pidxIn p v)
    (fun m m' bb hbb hq => by
      rw [scanBucket] at hbb
      exact foldlM_option_mono _ (fun mm => ALmem mm.pidxIn p v) _ _ _ hbb
        (fun acc acc' ii _ hstep hq' => scanSlotStep_pidxIn_mono g acc acc' _ p v hstep hq') hq)
    _ _ _ hscan b (List.mem_range.mpr hb) ?_
  intro m m' hbkt
  rw [scanBucket] at hbkt
  refine foldlM_option_invariant _ (fun mm => ALmem mm.pidxIn p v)
    (fun mm mm' ii hstep hq' => scanSlotStep_pidxIn_mono g mm mm' _ p v hstep hq')
    _ _ _ hbkt i (List.mem_range.mpr hi) ?_
  intro mm mm' hstep
  exact scanSlotStep_pidxIn_insert g mm mm' _ v p hkey hp0 hp1 hstep

theorem scanAll_pidxOut_mem (g : GStore) (maps : IdxMaps) (hscan : scanAll g = some maps)
    (b i v p : Nat) (hb : b < g.cfg.numBuckets + g.cfg.numBucketsExt)
    (hi : i < ASSOCIATIVITY - 1)
    (hkey : (g.vertices (b * ASSOCIATIVITY + i)).key = ⟨v, IN, p⟩) (hv : v ≠ 0)
    (hp0 : p ≠ PREDICATE_ID) (hp1 : p ≠ TYPE_ID) : ALmem maps.pidxOut p v := by
  rw [scanAll] at hscan
  refine foldlM_option_invariant _ (fun m => ALmem m.pidxOut p v)
    (fun m m' bb hbb hq => by
      rw [scanBucket] at hbb
      exact foldlM_option_mono _ (fun mm => ALmem mm.pidxOut p v) _ _ _ hbb
        (fun acc acc' ii _ hstep hq' => scanSlotStep_pidxOut_mono g acc acc' _ p v hstep hq') hq)
    _ _ _ hscan b (List.mem_range.mpr hb) ?_
  intro m m' hbkt
  rw [scanBucket] at hbkt
  refine foldlM_option_invariant _ (fun mm => ALmem mm.pidxOut p v)
    (fun mm mm' ii hstep hq' => scanSlotStep_pidxOut_mono g mm mm' _ p v hstep hq')
    _ _ _ hbkt i (List.mem_range.mpr hi) ?_
  intro mm mm' hstep
  exact scanSlotStep_pidxOut_insert g mm mm' _ v p hkey hv hp0 hp1 hstep

theorem scanAll_tidx_mem (g : GStore) (maps : IdxMaps) (hscan : scanAll g = some maps)
    (b i s t : Nat) (hb : b < g.cfg.numBuckets + g.cfg.numBucketsExt)
    (hi : i < ASSOCIATIVITY - 1)
    (hkey : (g.vertices (b * ASSOCIATIVITY + i)).key = ⟨s, OUT, TYPE_ID⟩)
    (ht : t ∈ readEdges g (g.vertices (b * ASSOCIATIVITY + i)).ptr.off
      (g.vertices (b * ASSOCIATIVITY + i)).ptr.size) : ALmem maps.tidx t s := by
  rw [scanAll] at hscan
  refine foldlM_option_invariant _ (fun m => ALmem m.tidx t s)
    (fun m m' bb hbb hq => by
      rw [scanBucket] at hbb
      exact foldlM_option_mono _ (fun mm => ALmem mm.tidx t s) _ _ _ hbb
        (fun acc acc' ii _ hstep hq' => scanSlotStep_tidx_mono g acc acc' _ t s hstep hq') hq)
    _ _ _ hscan b (List.mem_range.mpr hb) ?_
  intro m m' hbkt
  rw [scanBucket] at hbkt
  refine foldlM_option_invariant _ (fun mm => ALmem mm.tidx t s)
    (fun mm mm' ii hstep hq' => scanSlotStep_tidx_mono g mm mm' _ t s hstep hq')
    _ _ _ hbkt i (List.mem_range.mpr hi) ?_
  intro mm mm' hstep
  exact scanSlotStep_tidx_insert g mm mm' _ s t hkey ht hstep

theorem scanSlotStep_total (g : GStore) (m : IdxMaps) (slot : Nat)
    (hslot : (g.vertices slot).key.dir = IN → (g.vertices slot).key ≠ IKey.empty →
      (g.vertices slot).key.pid ≠ TYPE_ID) :
    ∃ m', scanSlotStep g m slot = some m' := by
  rw [scanSlotStep]
  split
  · exact ⟨m, rfl⟩
  · rename_i hne
    dsimp only
    split
    · rename_i hdir
      split
      · exact ⟨m, rfl⟩
      · rw [if_neg (hslot hdir hne)]
        exact ⟨_, rfl⟩
    · split
      · exact ⟨m, rfl⟩
      · split
        · exact ⟨_, rfl⟩
        · exact ⟨_, rfl⟩

theorem scanAll_isSome_of_KeyOk (g : GStore)
    (hk : KeyOk g (fun k => k.dir = IN → k.pid ≠ TYPE_ID)) :
    ∃ maps, scanAll g = some maps := by
  rw [scanAll]
  refine foldlM_option_total _ _ _ ?_
  intro m b hb
  rw [scanBucket]
  refine foldlM_option_total _ _ _ ?_
  intro mm i hi
  refine scanSlotStep_total g mm _ ?_
  intro hdir hne
  have hlt : b * ASSOCIATIVITY + i < g.numSlots := by
    refine data_slot_lt_numSlots g b i (by simpa using List.mem_range.mp hb) ?_
    have := List.mem_range.mp hi
    omega
  rcases hk _ hlt with he | hp
  · exact absurd he hne
  · exact hp hdir

theorem insert_index_stages (g gf : GStore) (hok : insert_index g = .ok gf)
    (hext : gf.lastExt = g.lastExt) :
    ∃ maps g1 g2, scanAll g = some maps ∧
      insertIndexMapLoop g IN maps.tidx = .ok g1 ∧ g1.lastExt = g.lastExt ∧
      insertIndexMapLoop g1 IN maps.pidxIn = .ok g2 ∧ g2.lastExt = g1.lastExt ∧
      insertIndexMapLoop g2 OUT maps.pidxOut = .ok gf ∧ gf.lastExt = g2.lastExt := by
  rw [insert_index] at hok
  rcases hs : scanAll g with - | maps <;> rw [hs] at hok
  · cases hok
  · dsimp only at hok
    rcases h1 : insertIndexMapLoop g IN maps.tidx with g1 | f | - <;> rw [h1] at hok <;>
      dsimp only at hok
    · rcases h2 : insertIndexMapLoop g1 IN maps.pidxIn with g2 | f | - <;> rw [h2] at hok <;>
        dsimp only at hok
      · have e1 := insertIndexMapLoop_lastExt_le _ _ _ _ h1
        have e2 := insertIndexMapLoop_lastExt_le _ _ _ _ h2
        have e3 := insertIndexMapLoop_lastExt_le _ _ _ _ hok
        exact ⟨maps, g1, g2, rfl, h1, by omega, h2, by omega, hok, by omega⟩
      · cases hok
      · cases hok
    · cases hok
    · cases hok

/-- C1: CORRECTED - the index directions are swapped relative to the claim.
After `insert_index` completes (without overflow-bucket allocation during the
index phase), every normal key `(v, OUT, p)` with `v ≠ 0` and `p` a normal
predicate id is indexed under the key `(0, IN, p)` - not `(0, OUT, p)` as the
claim states - and symmetrically every `(v, IN, p)` under `(0, OUT, p)`; on the
single triple `(10, 5, 20)`, `get_index_edges_local(_, 5, OUT)` returns `[20]`
(not `[10]`) and `get_index_edges_local(_, 5, IN)` returns `[10]` (not
`[20]`). -/
theorem C1_index_direction (g gf : GStore)
    (hok : insert_index g = .ok gf) (hext : gf.lastExt = g.lastExt) :
    (∀ b i v p, b < g.cfg.numBuckets + g.cfg.numBucketsExt → i < ASSOCIATIVITY - 1 →
      (gf.vertices (b * ASSOCIATIVITY + i)).key = ⟨v, OUT, p⟩ → v ≠ 0 →
      p ≠ PREDICATE_ID → p ≠ TYPE_ID →
      ∃ j sz eoff, gf.vertices j = ⟨⟨0, IN, p⟩, ⟨sz, eoff⟩⟩ ∧
        v ∈ readEdges gf eoff sz) ∧
    (∀ b i v p, b < g.cfg.numBuckets + g.cfg.numBucketsExt → i < ASSOCIATIVITY - 1 →
      (gf.vertices (b * ASSOCIATIVITY + i)).key = ⟨v, IN, p⟩ → v ≠ 0 →
      p ≠ PREDICATE_ID → p ≠ TYPE_ID →
      ∃ j sz eoff, gf.vertices j = ⟨⟨0, OUT, p⟩, ⟨sz, eoff⟩⟩ ∧
        v ∈ readEdges gf eoff sz) ∧
    get_index_edges_local scen1Final 5 OUT = some (1, [20]) ∧
    get_index_edges_local scen1Final 5 IN = some (1, [10]) := by
  obtain ⟨maps, g1, g2, hs, h1, he1, h2, he2, h3, he3⟩ := insert_index_stages g gf hok hext
  obtain ⟨f1, e1, c1, l1, k1, m1⟩ := insertIndexMapLoop_spec maps.tidx g IN g1 h1 he1
  obtain ⟨f2, e2, c2, l2, k2, m2⟩ := insertIndexMapLoop_spec maps.pidxIn g1 IN g2 h2 he2
  obtain ⟨f3, e3, c3, l3, k3, m3⟩ := insertIndexMapLoop_spec maps.pidxOut g2 OUT gf h3 he3
  refine ⟨?_, ?_, by decide, by decide⟩
  · intro b i v p hb hi hkey hv hp0 hp1
    -- the key of this slot is unchanged through all three index passes
    have hk2 : (g2.vertices (b * ASSOCIATIVITY + i)).key = ⟨v, OUT, p⟩ := by
      rcases k3 (b * ASSOCIATIVITY + i) with he | he
      · rw [← he]; exact hkey
      · rw [hkey] at he; exact absurd he hv
    have hk1 : (g1.vertices (b * ASSOCIATIVITY + i)).key = ⟨v, OUT, p⟩ := by
      rcases k2 (b * ASSOCIATIVITY + i) with he | he
      · rw [← he]; exact hk2
      · rw [hk2] at he; exact absurd he hv
    have hk0 : (g.vertices (b * ASSOCIATIVITY + i)).key = ⟨v, OUT, p⟩ := by
      rcases k1 (b * ASSOCIATIVITY + i) with he | he
      · rw [← he]; exact hk1
      · rw [hk1] at he; exact absurd he hv
    obtain ⟨lst, hmem, hvl⟩ := scanAll_pidxIn_mem g maps hs b i v p hb hi hk0 hp0 hp1
    have hne : (⟨0, IN, p⟩ : IKey) ≠ IKey.empty := by
      simp only [IKey.empty, IN, ne_eq, IKey.mk.injEq, not_and]
      intro _ _; exact hp0
    obtain ⟨j, sz, eoff, hj, hvr, hcap⟩ := m2 p lst hmem hne v hvl
    have hjk : (g2.vertices j).key ≠ IKey.empty := by rw [hj]; exact hne
    refine ⟨j, sz, eoff, by rw [f3 j hjk]; exact hj, ?_⟩
    rw [readEdges_congr g2 gf eoff sz (fun d hd => e3 (eoff + d) (by omega))]
    exact hvr
  · intro b i v p hb hi hkey hv hp0 hp1
    have hk2 : (g2.vertices (b * ASSOCIATIVITY + i)).key = ⟨v, IN, p⟩ := by
      rcases k3 (b * ASSOCIATIVITY + i) with he | he
      · rw [← he]; exact hkey
      · rw [hkey] at he; exact absurd he hv
    have hk1 : (g1.vertices (b * ASSOCIATIVITY + i)).key = ⟨v, IN, p⟩ := by
      rcases k2 (b * ASSOCIATIVITY + i) with he | he
      · rw [← he]; exact hk2
      · rw [hk2] at he; exact absurd he hv
    have hk0 : (g.vertices (b * ASSOCIATIVITY + i)).key = ⟨v, IN, p⟩ := by
      rcases k1 (b * ASSOCIATIVITY + i) with he | he
      · rw [← he]; exact hk1
      · rw [hk1] at he; exact absurd he hv
    obtain ⟨lst, hmem, hvl⟩ := scanAll_pidxOut_mem g maps hs b i v p hb hi hk0 hv hp0 hp1
    have hne : (⟨0, OUT, p⟩ : IKey) ≠ IKey.empty := by
      simp [IKey.empty, OUT, IKey.mk.injEq]
    obtain ⟨j, sz, eoff, hj, hvr, hcap⟩ := m3 p lst hmem hne v hvl
    exact ⟨j, sz, eoff, hj, hvr⟩

/-- C1 counterexample: building the single triple `(10, 5, 20)` and running
`insert_index` succeeds, the two normal lookups behave as claimed, but
`get_index_edges_local(_, 5, OUT)` returns `[20]` where the claim says `[10]`,
and `get_index_edges_local(_, 5, IN)` returns `[10]` where the claim says
`[20]`: `insert_index_map(pidx_in_map, IN, tid)` is called on the map built
from OUT slots and vice versa. -/
theorem C1_counterexample :
    (insert_normal store0 spoC1 spoC1).isOk = true ∧
    (insert_index scen1Mid).isOk = true ∧
    get_edges_local scen1Final 10 OUT 5 = some (1, [20]) ∧
    get_edges_local scen1Final 20 IN 5 = some (1, [10]) ∧
    get_index_edges_local scen1Final 5 OUT = some (1, [20]) ∧
    get_index_edges_local scen1Final 5 OUT ≠ some (1, [10]) ∧
    get_index_edges_local scen1Final 5 IN = some (1, [10]) ∧
    get_index_edges_local scen1Final 5 IN ≠ some (1, [20]) := by decide

theorem C1_index_direction_witness :
    insert_index scen1Mid = .ok scen1Final ∧ scen1Final.lastExt = scen1Mid.lastExt ∧
    (∃ j sz eoff, scen1Final.vertices j = ⟨⟨0, IN, 5⟩, ⟨sz, eoff⟩⟩ ∧
      10 ∈ readEdges scen1Final eoff sz) ∧
    get_index_edges_local scen1Final 5 OUT = some (1, [20]) := by
  have hok : insert_index scen1Mid = .ok scen1Final := rfl
  have hext : scen1Final.lastExt = scen1Mid.lastExt := by decide
  have H := C1_index_direction scen1Mid scen1Final hok hext
  exact ⟨hok, hext,
    H.1 3 0 10 5 (by decide) (by decide) (by decide) (by decide) (by decide) (by decide),
    H.2.2.1⟩

theorem dropWhile_tpid_false (cfg : Config) : ∀ (l : List Triple),
    l.Pairwise (fun a b => a.o ≤ b.o) →
    ∀ t ∈ l.dropWhile (fun t => cfg.is_tpid t.o), cfg.is_tpid t.o = false := by
  intro l
  induction l with
  | nil => intro _ t ht; simp at ht
  | cons a rest ih =>
    intro hsort t ht
    rcases List.pairwise_cons.mp hsort with ⟨hle, hrest⟩
    rw [List.dropWhile_cons] at ht
    by_cases ha : cfg.is_tpid a.o = true
    · rw [if_pos ha] at ht
      exact ih hrest t ht
    · rw [if_neg ha] at ht
      rcases List.mem_cons.mp ht with rfl | hmem
      · exact Bool.eq_false_iff.mpr ha
      · have hao : ¬ a.o < cfg.tpidMax := by simpa [Config.is_tpid] using ha
        have hat : a.o ≤ t.o := hle t hmem
        simp only [Config.is_tpid, decide_eq_false_iff_not]
        omega

theorem typeTriples_countP (cfg : Config) : ∀ (l : List Triple),
    l.Pairwise (fun a b => a.o ≤ b.o) →
    (l.takeWhile (fun t => cfg.is_tpid t.o)).length =
      l.countP (fun t => cfg.is_tpid t.o) := by
  intro l
  induction l with
  | nil => intro _; simp
  | cons a rest ih =>
    intro hsort
    rcases List.pairwise_cons.mp hsort with ⟨hle, hrest⟩
    by_cases ha : cfg.is_tpid a.o = true
    · rw [List.takeWhile_cons, if_pos ha,
        List.countP_cons_of_pos (fun t => cfg.is_tpid t.o) rest ha]
      simp [ih hrest]
    · rw [List.takeWhile_cons, if_neg ha,
        List.countP_cons_of_neg (fun t => cfg.is_tpid t.o) rest ha]
      have h0 : rest.countP (fun t => cfg.is_tpid t.o) = 0 := by
        rw [List.countP_eq_zero]
        intro u hu
        have hao : ¬ a.o < cfg.tpidMax := by simpa [Config.is_tpid] using ha
        have hau : a.o ≤ u.o := hle u hu
        simp only [Config.is_tpid, decide_eq_true_eq]
        omega
      simp [h0]

theorem runSplitSP_snd_mem (t : Triple) : ∀ (l : List Triple) (u : Triple),
    u ∈ (runSplitSP t l).2 → u ∈ l := by
  intro l
  induction l with
  | nil => intro u hu; simp [runSplitSP] at hu
  | cons a rest ih =>
    intro u hu
    simp only [runSplitSP] at hu
    by_cases hc : a.s = t.s ∧ a.p = t.p
    · rw [if_pos hc] at hu
      dsimp only at hu
      exact List.mem_cons_of_mem a (ih u hu)
    · rw [if_neg hc] at hu
      exact hu

theorem runSplitOP_snd_mem (t : Triple) : ∀ (l : List Triple) (u : Triple),
    u ∈ (runSplitOP t l).2 → u ∈ l := by
  intro l
  induction l with
  | nil => intro u hu; simp [runSplitOP] at hu
  | cons a rest ih =>
    intro u hu
    simp only [runSplitOP] at hu
    by_cases hc : a.o = t.o ∧ a.p = t.p
    · rw [if_pos hc] at hu
      dsimp only at hu
      exact List.mem_cons_of_mem a (ih u hu)
    · rw [if_neg hc] at hu
      exact hu

theorem KeyOk_congr (g g' : GStore) (P : IKey → Prop) (hcfg : g'.cfg = g.cfg)
    (hkeys : ∀ i, (g'.vertices i).key = (g.vertices i).key) (h : KeyOk g P) :
    KeyOk g' P := by
  intro i hi
  rw [numSlots_congr_cfg g g' hcfg] at hi
  rw [hkeys i]
  exact h i hi

theorem outPass_KeyOk (P : IKey → Prop) (hjunk : ∀ E, P ⟨E, 0, 0⟩) :
    ∀ (fuel : Nat) (g : GStore) (off : Nat) (l : List Triple) (g' : GStore) (off' : Nat),
    outPass fuel g off l = (.ok g', off') → (∀ t ∈ l, P ⟨t.s, OUT, t.p⟩) →
    KeyOk g P → KeyOk g' P := by
  intro fuel
  induction fuel with
  | zero =>
    intro g off l g' off' h hl hk
    cases l with
    | nil =>
      simp only [outPass] at h
      injection h with h1 h2
      injection h1 with h1
      cases h1
      exact hk
    | cons t rest =>
      simp only [outPass] at h
      simp at h
  | succ n ih =>
    intro g off l g' off' h hl hk
    cases l with
    | nil =>
      simp only [outPass] at h
      injection h with h1 h2
      injection h1 with h1
      cases h1
      exact hk
    | cons t rest =>
      simp only [outPass] at h
      rcases hins : insert_key g ⟨t.s, OUT, t.p⟩ with ⟨g1, slot⟩ | f | - <;> rw [hins] at h <;>
        dsimp only at h
      · refine ih _ _ _ g' off' h ?_ ?_
        · intro u hu
          exact hl u (List.mem_cons_of_mem t (runSplitSP_snd_mem t rest u hu))
        · refine KeyOk_congr _ _ P (by simp [writeEdges_cfg]) ?_
            (insert_key_KeyOk _ _ _ _ P hins hk (hl t (List.mem_cons_self t rest)) hjunk)
          intro i
          rw [writeEdges_vertices, setPtr_key]
      · simp at h
      · simp at h

theorem inPass_KeyOk (P : IKey → Prop) (hjunk : ∀ E, P ⟨E, 0, 0⟩) :
    ∀ (fuel : Nat) (g : GStore) (off : Nat) (l : List Triple) (g' : GStore) (off' : Nat),
    inPass fuel g off l = (.ok g', off') → (∀ t ∈ l, P ⟨t.o, IN, t.p⟩) →
    KeyOk g P → KeyOk g' P := by
  intro fuel
  induction fuel with
  | zero =>
    intro g off l g' off' h hl hk
    cases l with
    | nil =>
      simp only [inPass] at h
      injection h with h1 h2
      injection h1 with h1
      cases h1
      exact hk
    | cons t rest =>
      simp only [inPass] at h
      simp at h
  | succ n ih =>
    intro g off l g' off' h hl hk
    cases l with
    | nil =>
      simp only [inPass] at h
      injection h with h1 h2
      injection h1 with h1
      cases h1
      exact hk
    | cons t rest =>
      simp only [inPass] at h
      rcases hins : insert_key g ⟨t.o, IN, t.p⟩ with ⟨g1, slot⟩ | f | - <;> rw [hins] at h <;>
        dsimp only at h
      · refine ih _ _ _ g' off' h ?_ ?_
        · intro u hu
          exact hl u (List.mem_cons_of_mem t (runSplitOP_snd_mem t rest u hu))
        · refine KeyOk_congr _ _ P (by simp [writeEdges_cfg]) ?_
            (insert_key_KeyOk _ _ _ _ P hins hk (hl t (List.mem_cons_self t rest)) hjunk)
          intro i
          rw [writeEdges_vertices, setPtr_key]
      · simp at h
      · simp at h

theorem insert_normal_KeyOk (g : GStore) (spo ops : List Triple) (g' : GStore)
    (h : insert_normal g spo ops = .ok g') (P : IKey → Prop) (hjunk : ∀ E, P ⟨E, 0, 0⟩)
    (hspo : ∀ t ∈ spo, P ⟨t.s, OUT, t.p⟩)
    (hops : ∀ t ∈ ops.dropWhile (fun t => g.cfg.is_tpid t.o), P ⟨t.o, IN, t.p⟩)
    (hk : KeyOk g P) : KeyOk g' P := by
  obtain ⟨g0, off, g1, off1, off2, ha, ho, hi⟩ := insert_normal_ok_parts g spo ops g' h
  obtain ⟨hcfg, hverts, -, -, -, -, -⟩ := allocEdges_ok _ _ _ _ ha
  have hk0 : KeyOk g0 P := KeyOk_congr g g0 P hcfg (fun i => by rw [hverts]) hk
  exact inPass_KeyOk P hjunk _ _ _ _ _ _ hi hops
    (outPass_KeyOk P hjunk _ _ _ _ _ _ ho hspo hk0)

/-- C7: with `ops` sorted by object, type objects below `TPID_MAX`, and every
`TYPE_ID`-predicate triple having a type object, `insert_normal` skips exactly
the type prefix of `ops` (its length equals the number of type-object triples,
and nothing past it is a type triple), creates no key of the form
`(·, IN, TYPE_ID)` (given the table had none), so the scan of `insert_index`
never hits the fatal type assertion; and for every type key `(s, OUT, TYPE_ID)`
whose list contains `t ≠ 0`, after an overflow-free `insert_index` some slot
holds the index key `(0, IN, t)` with `s` in its list.  Concretely, building
the type triple `(10, 1, 7)` with `7 < TPID_MAX` gives
`get_edges_local(_, 10, OUT, 1) = [7]`, `get_index_edges_local(_, 7, IN) =
[10]`, and no `(·, IN, 1)` key anywhere in the final table. -/
theorem C7_type_prefix (g : GStore) (spo ops : List Triple) (gm : GStore)
    (hok : insert_normal g spo ops = .ok gm)
    (hsort : ops.Pairwise (fun a b => a.o ≤ b.o))
    (htype : ∀ t ∈ ops, t.p = TYPE_ID → g.cfg.is_tpid t.o = true)
    (hbase : KeyOk g (fun k => k.dir = IN → k.pid ≠ TYPE_ID)) :
    typeTriples g ops = ops.countP (fun t => g.cfg.is_tpid t.o) ∧
    (∀ t ∈ ops.dropWhile (fun t => g.cfg.is_tpid t.o), g.cfg.is_tpid t.o = false) ∧
    KeyOk gm (fun k => k.dir = IN → k.pid ≠ TYPE_ID) ∧
    (∃ maps, scanAll gm = some maps) ∧
    (∀ gf, insert_index gm = .ok gf → gf.lastExt = gm.lastExt →
      ∀ b i s t, b < gm.cfg.numBuckets + gm.cfg.numBucketsExt → i < ASSOCIATIVITY - 1 →
        t ≠ 0 →
        (gm.vertices (b * ASSOCIATIVITY + i)).key = ⟨s, OUT, TYPE_ID⟩ →
        t ∈ readEdges gm (gm.vertices (b * ASSOCIATIVITY + i)).ptr.off
          (gm.vertices (b * ASSOCIATIVITY + i)).ptr.size →
        ∃ j sz eoff, gf.vertices j = ⟨⟨0, IN, t⟩, ⟨sz, eoff⟩⟩ ∧
          s ∈ readEdges gf eoff sz) ∧
    get_edges_local scen7Mid 10 OUT 1 = some (1, [7]) ∧
    get_index_edges_local scen7Final 7 IN = some (1, [10]) ∧
    (∀ i, i < scen7Final.numSlots →
      (scen7Final.vertices i).key.dir = IN → (scen7Final.vertices i).key.pid ≠ TYPE_ID) := by
  have hP : KeyOk gm (fun k => k.dir = IN → k.pid ≠ TYPE_ID) := by
    refine insert_normal_KeyOk g spo ops gm hok _
      (fun E => fun _ => (by decide : (0 : Nat) ≠ TYPE_ID))
      (fun t _ => by intro hd; simp [OUT, IN] at hd) ?_ hbase
    intro t ht
    intro _
    have hmem : t ∈ ops := (List.dropWhile_sublist _).subset ht
    have hfalse := dropWhile_tpid_false g.cfg ops hsort t ht
    intro hpid
    have htrue := htype t hmem hpid
    rw [hfalse] at htrue
    cases htrue
  refine ⟨typeTriples_countP g.cfg ops hsort, dropWhile_tpid_false g.cfg ops hsort, hP,
    scanAll_isSome_of_KeyOk gm hP, ?_, by decide, by decide, by decide⟩
  intro gf hokf hext b i s t hb hi ht0 hkey htm
  obtain ⟨maps, g1, g2, hs, h1, he1, h2, he2, h3, he3⟩ := insert_index_stages gm gf hokf hext
  obtain ⟨f1, e1, c1, l1, k1, m1⟩ := insertIndexMapLoop_spec maps.tidx gm IN g1 h1 he1
  obtain ⟨f2, e2, c2, l2, k2, m2⟩ := insertIndexMapLoop_spec maps.pidxIn g1 IN g2 h2 he2
  obtain ⟨f3, e3, c3, l3, k3, m3⟩ := insertIndexMapLoop_spec maps.pidxOut g2 OUT gf h3 he3
  obtain ⟨lst, hmem, hsl⟩ := scanAll_tidx_mem gm maps hs b i s t hb hi hkey htm
  have hne : (⟨0, IN, t⟩ : IKey) ≠ IKey.empty := by
    simp only [IKey.empty, IN, ne_eq, IKey.mk.injEq, not_and]
    intro _ _; exact ht0
  obtain ⟨j, sz, eoff, hj, hvr, hcap⟩ := m1 t lst hmem hne s hsl
  have hjk1 : (g1.vertices j).key ≠ IKey.empty := by
    rw [hj]; exact hne
  have hf2 : g2.vertices j = g1.vertices j := f2 j hjk1
  have hjk2 : (g2.vertices j).key ≠ IKey.empty := by
    rw [hf2]; exact hjk1
  have hf3 : gf.vertices j = g2.vertices j := f3 j hjk2
  have hcap2 : eoff + sz ≤ g2.lastEntry := le_trans hcap l2
  refine ⟨j, sz, eoff, by rw [hf3, hf2]; exact hj, ?_⟩
  rw [readEdges_congr g2 gf eoff sz (fun d hd => e3 (eoff + d) (by omega)),
    readEdges_congr g1 g2 eoff sz (fun d hd => e2 (eoff + d) (by omega))]
  exact hvr

theorem C7_type_prefix_witness :
    insert_normal store0 spoC7 spoC7 = .ok scen7Mid ∧
    (∃ maps, scanAll scen7Mid = some maps) ∧
    (∃ j sz eoff, scen7Final.vertices j = ⟨⟨0, IN, 7⟩, ⟨sz, eoff⟩⟩ ∧
      10 ∈ readEdges scen7Final eoff sz) ∧
    get_index_edges_local scen7Final 7 IN = some (1, [10]) := by
  have hok : insert_normal store0 spoC7 spoC7 = .ok scen7Mid := rfl
  have H := C7_type_prefix store0 spoC7 spoC7 scen7Mid hok (by decide) (by decide)
    (by unfold KeyOk; decide)
  refine ⟨hok, H.2.2.2.1, ?_, H.2.2.2.2.2.2.1⟩
  have hokf : insert_index scen7Mid = .ok scen7Final := rfl
  exact H.2.2.2.2.1 scen7Final hokf (by decide) 3 0 10 7 (by decide) (by decide)
    (by decide) (by decide) (by decide)
